import Mathlib

/-!
# Liquefaction trust kernel: a shallow embedding in Lean 4

This file embeds, in Lean, the state and operations of the two core
contracts of the Liquefaction repository:

* `BasicEncumberedWallet.sol` (the encumbered-wallet registry), together
  with its `DelayedFinalizationAddress.sol` / `DelayedFinalizationBool.sol`
  libraries, and
* `EthTransactionPolicy.sol` (the Ethereum-transaction encumbrance policy).

Conventions of the embedding:

* Ethereum addresses, `bytes32` words, and `uint256` values are all
  modelled as `Nat` (the zero address is `0`).  Byte strings are
  `List Nat`.  Solidity 0.8 uses checked arithmetic, so wherever a sum or
  product of unbounded user-supplied values occurs we guard with an
  explicit `< 2 ^ 256` check whose failure, like a Solidity revert,
  aborts the operation.
* Solidity mappings are total functions with the language-defined zero
  default; `mapUpd` is the storage write.
* A reverting external call or failed `require` makes the whole
  operation return `none`; a state-mutating operation returns
  `some newState`.  Within a transaction trace, a failed operation leaves
  the state unchanged (Ethereum reverts the whole call).
* Host / chain primitives (Keccak, RLP serialization, ECDSA recovery,
  Sapphire key generation, encryption, the proof verifier and the block
  hash oracle) are abstract function parameters collected in environment
  structures (`WEnv`, `PEnv`); theorems hold for every environment, and
  witnesses instantiate them with concrete executable functions.
* Fresh randomness (key material, random indices, nonces) is supplied by
  the environment as operation arguments; trace legality states the
  freshness the host randomness provides.
-/

/-- Storage write for a Solidity mapping modelled as a total function. -/
def mapUpd {β : Type} (f : Nat → β) (a : Nat) (b : β) : Nat → β :=
  fun x => if x = a then b else f x

/-- The `uint256` modulus of the EVM. -/
def uintMax : Nat := 2 ^ 256

/-! ## Delayed-finalization cells

Translated from `DelayedFinalizationAddress.sol` and
`DelayedFinalizationBool.sol`.  The cell operations read the current
block number, passed here as an explicit argument. -/

/-- Translated from `DelayedFinalizationAddress.AddressStatus`. -/
structure AddressStatus where
  _address : Nat
  pendingBlockNumber : Nat

/-- Translated from `DelayedFinalizationAddress.updateAddress`: fails (reverts) unless the
last write happened in a strictly earlier block. -/
def updateAddress (s : AddressStatus) (blockNumber : Nat) (newAddress : Nat) :
    Option AddressStatus :=
  if s.pendingBlockNumber < blockNumber then
    some { _address := newAddress, pendingBlockNumber := blockNumber }
  else none

/-- Translated from `DelayedFinalizationAddress.getFinalizedAddress`. -/
def getFinalizedAddress (s : AddressStatus) (blockNumber : Nat) : Option Nat :=
  if s.pendingBlockNumber < blockNumber then some s._address else none

/-- Translated from `DelayedFinalizationAddress.isFinalizedAddress`. -/
def isFinalizedAddress (s : AddressStatus) (blockNumber : Nat) (addr : Nat) :
    Bool :=
  if s.pendingBlockNumber ≥ blockNumber then false
  else decide (s._address = addr)

/-- Translated from `DelayedFinalizationBool.BoolStatus`. -/
structure BoolStatus where
  _bool : Bool
  pendingBlockNumber : Nat

/-- Translated from `DelayedFinalizationBool.updateBool`. -/
def updateBool (s : BoolStatus) (blockNumber : Nat) (newBool : Bool) :
    Option BoolStatus :=
  if s.pendingBlockNumber < blockNumber then
    some { _bool := newBool, pendingBlockNumber := blockNumber }
  else none

/-- Translated from `DelayedFinalizationBool.getFinalizedBool`. -/
def getFinalizedBool (s : BoolStatus) (blockNumber : Nat) : Option Bool :=
  if s.pendingBlockNumber < blockNumber then some s._bool else none

/-- Translated from `DelayedFinalizationBool.isFinalizedBool`. -/
def isFinalizedBool (s : BoolStatus) (blockNumber : Nat) (comparisonBool : Bool) :
    Bool :=
  if s.pendingBlockNumber ≥ blockNumber then false
  else decide (s._bool = comparisonBool)

/-! ## Asset classifier (`BasicEncumberedWallet.findAsset`) -/

/-- Translated from `BasicEncumberedWallet.findAsset`, the pure asset classifier on the
payload bytes. -/
def findAsset (message : List Nat) : Nat :=
  if message.length > 0 then
    if message.getD 0 0 = 0x19 then
      if message.length > 1 then
        if message.getD 1 0 = 0x01 then 0
        else if message.getD 1 0 = 0x45 then 0x1945
        else 0
      else 0
    else if message.getD 0 0 = 0x02 then 0x02
    else 0
  else 0

/-! ## Encumbered-wallet registry (`BasicEncumberedWallet.sol`) -/

/-- Translated from `EncumberedAccount` (BasicEncumberedWallet.sol). -/
structure EncumberedAccount where
  owner : Nat
  ownerIndex : Nat
  privateIndex : Nat
  blockNumber : Nat

/-- Translated from `AttendedWallet` (BasicEncumberedWallet.sol). -/
structure AttendedWallet where
  index : Nat
  blockNumber : Nat

/-- The storage of `BasicEncumberedWallet`.  Mapping fields mirror the
contract's state variables in declaration order; `keyExportPrivateKey`
is the registry's static Curve25519 export secret generated in the
constructor. -/
structure WState where
  selfAccounts : Nat → Nat → Nat
  privateKeys : Nat → List Nat
  publicKeys : Nat → List Nat
  addresses : Nat → Nat
  accounts : Nat → EncumberedAccount
  encumbranceContract : Nat → Nat → AddressStatus
  encumbranceExpiry : Nat → Nat → Nat
  keyExportPrivateKey : Nat
  keyExportPublicKey : Nat
  keyExportRequested : Nat → BoolStatus
  keyExportCounterparty : Nat → Nat
  maxEncumbranceExpiry : Nat → Nat
  attendedWallets : Nat → List AttendedWallet

/-- The registry state right after the constructor ran: every mapping
holds the zero default, and the constructor generated the static
Curve25519 export key pair `(xpk, xsk)`. -/
def wInitial (xpk xsk : Nat) : WState where
  selfAccounts := fun _ _ => 0
  privateKeys := fun _ => []
  publicKeys := fun _ => []
  addresses := fun _ => 0
  accounts := fun _ => ⟨0, 0, 0, 0⟩
  encumbranceContract := fun _ _ => ⟨0, 0⟩
  encumbranceExpiry := fun _ _ => 0
  keyExportPrivateKey := xsk
  keyExportPublicKey := xpk
  keyExportRequested := fun _ => ⟨false, 0⟩
  keyExportCounterparty := fun _ => 0
  maxEncumbranceExpiry := fun _ => 0
  attendedWallets := fun _ => []

/-- The block context of one dispatched call: `msg.sender`,
`block.number` and `block.timestamp`. -/
structure WCtx where
  caller : Nat
  blockNumber : Nat
  timestamp : Nat

/-- Host primitives used by the wallet registry, abstracted: Keccak over
byte strings, the Sapphire X25519 + AEAD envelope, prehashed secp256k1
signing, the ABI encoding of the key-export tag tuple, and the EIP-712
typed-data digest. -/
structure WEnv where
  keccakB : List Nat → Nat
  deriveSymmetricKey : Nat → Nat → Nat
  encryptB : Nat → Nat → List Nat → List Nat
  decryptB : Nat → Nat → List Nat → Option (List Nat)
  signP : List Nat → Nat → List Nat
  abiEncodeExportTag : Nat → List Nat
  typedDataHash : List Nat → List Nat → List Nat → Nat

/-- Translated from `uint256(bytes32(publicKey))`: the first 32 bytes of a byte string,
read big-endian and zero-padded on the right. -/
def bytes32ToUint (bs : List Nat) : Nat :=
  (List.range 32).foldl (fun acc i => acc * 256 + bs.getD i 0 % 256) 0

/-- Translated from `BasicEncumberedWallet.getPrivateIndex` (authorization helper):
the caller must be nonzero, own a wallet under `accountIndex`, and the
wallet's ownership-change block must be strictly in the past. -/
def getPrivateIndex (ctx : WCtx) (st : WState) (accountIndex : Nat) : Option Nat :=
  if ctx.caller = 0 then none
  else if st.selfAccounts ctx.caller accountIndex = 0 then none
  else if (st.accounts (st.addresses (st.selfAccounts ctx.caller accountIndex))).blockNumber
      < ctx.blockNumber then
    some (st.selfAccounts ctx.caller accountIndex)
  else none

/-- Translated from `BasicEncumberedWallet.getWalletAddress`. -/
def getWalletAddress (ctx : WCtx) (st : WState) (accountIndex : Nat) : Option Nat :=
  match getPrivateIndex ctx st accountIndex with
  | none => none
  | some privateIndex =>
      if st.addresses privateIndex = 0 then none else some (st.addresses privateIndex)

/-- Translated from `BasicEncumberedWallet.createWallet`.  The host's fresh randomness
(the generated key pair and its derived Ethereum address) is passed in
as `publicKey`, `privateKey` and `addr`.  Returns the new state and the
boolean result of the call. -/
def createWallet (ctx : WCtx) (st : WState) (index : Nat)
    (publicKey privateKey : List Nat) (addr : Nat) : Option (WState × Bool) :=
  if ctx.caller = 0 then none
  else if st.selfAccounts ctx.caller index ≠ 0 then some (st, false)
  else if publicKey.length = 0 then none
  else
    let privateIndex := bytes32ToUint publicKey
    some ({ st with
      selfAccounts := fun a i =>
        if a = ctx.caller ∧ i = index then privateIndex else st.selfAccounts a i
      publicKeys := mapUpd st.publicKeys privateIndex publicKey
      privateKeys := mapUpd st.privateKeys privateIndex privateKey
      addresses := mapUpd st.addresses privateIndex addr
      attendedWallets := mapUpd st.attendedWallets ctx.caller
        (st.attendedWallets ctx.caller ++ [⟨index, ctx.blockNumber⟩])
      accounts := mapUpd st.accounts addr
        ⟨ctx.caller, index, privateIndex, 0⟩ }, true)

/-- Translated from `BasicEncumberedWallet.transferAccountOwnership`.  The fresh random
`newOwnerAccountIndex` is environment-supplied. -/
def transferAccountOwnership (ctx : WCtx) (st : WState) (accountIndex : Nat)
    (newOwner : Nat) (newOwnerAccountIndex : Nat) : Option (WState × Nat) :=
  if newOwner = 0 then none
  else match getPrivateIndex ctx st accountIndex with
  | none => none
  | some privateIndex =>
      if (st.keyExportRequested privateIndex)._bool then none
      else
        let oldAcc := st.accounts (st.addresses privateIndex)
        some ({ st with
          selfAccounts := fun a i =>
            if a = newOwner ∧ i = newOwnerAccountIndex then privateIndex
            else if a = ctx.caller ∧ i = accountIndex then 0
            else st.selfAccounts a i
          accounts := mapUpd st.accounts (st.addresses privateIndex)
            ⟨newOwner, newOwnerAccountIndex, oldAcc.privateIndex, ctx.blockNumber⟩
          attendedWallets := mapUpd st.attendedWallets newOwner
            (st.attendedWallets newOwner ++ [⟨newOwnerAccountIndex, ctx.blockNumber⟩]) },
          newOwnerAccountIndex)

/-- The per-asset loop body of
`BasicEncumberedWallet.enterEncumbranceContract`: requires any prior
lease on the asset to have expired, installs the policy in the delayed
cell and the expiry in the plain map.  Any failure reverts the whole
enrollment. -/
def encumberAssets (ctx : WCtx) (account policyAddr expiry : Nat) :
    WState → List Nat → Option WState
  | st, [] => some st
  | st, asset :: rest =>
      if st.encumbranceExpiry account asset = 0 ∨
          st.encumbranceExpiry account asset < ctx.timestamp then
        match updateAddress (st.encumbranceContract account asset) ctx.blockNumber policyAddr with
        | none => none
        | some cell =>
            encumberAssets ctx account policyAddr expiry
              { st with
                encumbranceContract := fun a b =>
                  if a = account ∧ b = asset then cell else st.encumbranceContract a b
                encumbranceExpiry := fun a b =>
                  if a = account ∧ b = asset then expiry else st.encumbranceExpiry a b }
              rest
      else none

/-- Translated from `BasicEncumberedWallet.enterEncumbranceContract`.  The final
synchronous notification of the policy is an external call that may
revert; its outcome is environment-supplied as `policyAccepts`. -/
def wEnterEncumbranceContract (ctx : WCtx) (st : WState) (accountIndex : Nat)
    (assets : List Nat) (policyAddr expiry : Nat) (policyAccepts : Bool) :
    Option WState :=
  if ctx.timestamp < expiry then
    if policyAddr = 0 then none
    else match getPrivateIndex ctx st accountIndex with
    | none => none
    | some privateIndex =>
        if (st.keyExportRequested privateIndex)._bool then none
        else
          let account := st.addresses privateIndex
          match encumberAssets ctx account policyAddr expiry st assets with
          | none => none
          | some st1 =>
              let st2 := { st1 with
                maxEncumbranceExpiry := mapUpd st1.maxEncumbranceExpiry privateIndex
                  (max (st1.maxEncumbranceExpiry privateIndex) expiry) }
              if policyAccepts then some st2 else none
  else none

/-- Translated from `BasicEncumberedWallet.signMessageAuthorized` (private helper). -/
def signMessageAuthorized (env : WEnv) (ctx : WCtx) (st : WState)
    (privateIndex : Nat) (message : List Nat) : Option (List Nat) :=
  let privateKey := st.privateKeys privateIndex
  if privateKey.length = 0 then none
  else
    let asset := findAsset message
    if asset = 0 then none
    else
      let account := st.addresses privateIndex
      if ctx.timestamp < st.encumbranceExpiry account asset then
        some (env.signP privateKey (env.keccakB message))
      else none

/-- Translated from `BasicEncumberedWallet.signMessage` (view): the caller must be the
finalized leaseholder of the payload's asset and the lease unexpired. -/
def signMessage (env : WEnv) (ctx : WCtx) (st : WState) (account : Nat)
    (message : List Nat) : Option (List Nat) :=
  let asset := findAsset message
  if asset = 0 then none
  else if isFinalizedAddress (st.encumbranceContract account asset) ctx.blockNumber ctx.caller then
    if ctx.timestamp < st.encumbranceExpiry account asset then
      signMessageAuthorized env ctx st (st.accounts account).privateIndex message
    else none
  else none

/-- A minimal `EIP712DomainParams`: the wallet only reads the domain
name when classifying typed data. -/
structure EIP712DomainParams where
  name : List Nat

/-- The byte string `"EIP-712 "`. -/
def eip712Tag : List Nat := [0x45, 0x49, 0x50, 0x2d, 0x37, 0x31, 0x32, 0x20]

/-- Translated from `BasicEncumberedWallet.findEip712Asset`:
`keccak256("EIP-712 " ∥ domain.name)`. -/
def findEip712Asset (env : WEnv) (domain : EIP712DomainParams) : Nat :=
  env.keccakB (eip712Tag ++ domain.name)

/-- Translated from `BasicEncumberedWallet.signTypedDataAuthorized` (private helper). -/
def signTypedDataAuthorized (env : WEnv) (st : WState) (privateIndex : Nat)
    (domain : EIP712DomainParams) (dataType data : List Nat) : Option (List Nat) :=
  let privateKey := st.privateKeys privateIndex
  if privateKey.length = 0 then none
  else some (env.signP privateKey (env.typedDataHash domain.name dataType data))

/-- Translated from `BasicEncumberedWallet.signTypedData` (view). -/
def signTypedData (env : WEnv) (ctx : WCtx) (st : WState) (account : Nat)
    (domain : EIP712DomainParams) (dataType data : List Nat) : Option (List Nat) :=
  let asset := findEip712Asset env domain
  if asset = 0 then none
  else if isFinalizedAddress (st.encumbranceContract account asset) ctx.blockNumber ctx.caller then
    if ctx.timestamp < st.encumbranceExpiry account asset then
      signTypedDataAuthorized env st (st.accounts account).privateIndex domain dataType data
    else none
  else none

/-- Translated from `BasicEncumberedWallet.requestKeyExport`: allowed only once all
leases of the wallet have expired and no export was requested before;
the counterparty proves control of its Curve25519 secret by encrypting
the expected tag tuple to the registry's static export key. -/
def requestKeyExport (env : WEnv) (ctx : WCtx) (st : WState) (accountIndex : Nat)
    (counterpartyPubKey : Nat) (ciphertext : List Nat) (nonce : Nat) :
    Option WState :=
  match getPrivateIndex ctx st accountIndex with
  | none => none
  | some privateIndex =>
      if ctx.timestamp > st.maxEncumbranceExpiry privateIndex then
        if (st.keyExportRequested privateIndex)._bool then none
        else match updateBool (st.keyExportRequested privateIndex) ctx.blockNumber true with
        | none => none
        | some cell =>
            let st1 := { st with
              keyExportRequested := mapUpd st.keyExportRequested privateIndex cell }
            let sharedKey := env.deriveSymmetricKey counterpartyPubKey st.keyExportPrivateKey
            match env.decryptB sharedKey nonce ciphertext with
            | none => none
            | some tag =>
                match getWalletAddress ctx st1 accountIndex with
                | none => none
                | some walletAddr =>
                    if env.keccakB tag = env.keccakB (env.abiEncodeExportTag walletAddr) then
                      some { st1 with
                        keyExportCounterparty :=
                          mapUpd st1.keyExportCounterparty privateIndex counterpartyPubKey }
                    else none
      else none

/-- Translated from `BasicEncumberedWallet.exportKey` (view): requires the export
request to be finalized, then encrypts the private key to the recorded
counterparty under a fresh host-supplied `nonce`. -/
def exportKey (env : WEnv) (ctx : WCtx) (st : WState) (accountIndex : Nat)
    (nonce : Nat) : Option (List Nat × Nat) :=
  match getPrivateIndex ctx st accountIndex with
  | none => none
  | some privateIndex =>
      match getFinalizedBool (st.keyExportRequested privateIndex) ctx.blockNumber with
      | some true =>
          let sharedKey := env.deriveSymmetricKey (st.keyExportCounterparty privateIndex)
            st.keyExportPrivateKey
          some (env.encryptB sharedKey nonce (st.privateKeys privateIndex), nonce)
      | _ => none

/-- The 96-byte constant `destroyExportedKey` writes over the
private-key slot (three copies of the same 32 bytes). -/
def destroyedKeyBytes : List Nat :=
  [0xe3, 0xb0, 0xc4, 0x42, 0x98, 0xfc, 0x1c, 0x14, 0x9a, 0xfb, 0xf4, 0xc8,
   0x99, 0x6f, 0xb9, 0x24, 0x27, 0xae, 0x41, 0xe4, 0x64, 0x9b, 0x93, 0x4c,
   0xa4, 0x95, 0x99, 0x1b, 0x78, 0x52, 0xb8, 0x55] ++
  [0xe3, 0xb0, 0xc4, 0x42, 0x98, 0xfc, 0x1c, 0x14, 0x9a, 0xfb, 0xf4, 0xc8,
   0x99, 0x6f, 0xb9, 0x24, 0x27, 0xae, 0x41, 0xe4, 0x64, 0x9b, 0x93, 0x4c,
   0xa4, 0x95, 0x99, 0x1b, 0x78, 0x52, 0xb8, 0x55] ++
  [0xe3, 0xb0, 0xc4, 0x42, 0x98, 0xfc, 0x1c, 0x14, 0x9a, 0xfb, 0xf4, 0xc8,
   0x99, 0x6f, 0xb9, 0x24, 0x27, 0xae, 0x41, 0xe4, 0x64, 0x9b, 0x93, 0x4c,
   0xa4, 0x95, 0x99, 0x1b, 0x78, 0x52, 0xb8, 0x55]

/-- Translated from `BasicEncumberedWallet.destroyExportedKey`: requires the finalized
export flag, then overwrites the private-key slot with known bytes. -/
def destroyExportedKey (ctx : WCtx) (st : WState) (accountIndex : Nat) :
    Option WState :=
  match getPrivateIndex ctx st accountIndex with
  | none => none
  | some privateIndex =>
      match getFinalizedBool (st.keyExportRequested privateIndex) ctx.blockNumber with
      | some true =>
          some { st with
            privateKeys := mapUpd st.privateKeys privateIndex destroyedKeyBytes }
      | _ => none

/-! ### Wallet traces

A trace is a list of dispatched state-mutating operations, each with its
block context.  A failed operation reverts: the state is unchanged. -/

/-- The state-mutating entry points of the wallet registry.  For
`createWallet` the constructor carries the host-generated key material;
for `transferAccountOwnership` the host-generated random index; for
`enterEncumbranceContract` the outcome of the external policy
notification. -/
inductive WOp where
  | createWallet (index : Nat) (publicKey privateKey : List Nat) (addr : Nat)
  | transferAccountOwnership (accountIndex newOwner newOwnerAccountIndex : Nat)
  | enterEncumbranceContract (accountIndex : Nat) (assets : List Nat)
      (policyAddr expiry : Nat) (policyAccepts : Bool)
  | requestKeyExport (accountIndex counterpartyPubKey : Nat)
      (ciphertext : List Nat) (nonce : Nat)
  | destroyExportedKey (accountIndex : Nat)

/-- One dispatched wallet operation. -/
def wstep (env : WEnv) (ctx : WCtx) (op : WOp) (st : WState) : Option WState :=
  match op with
  | .createWallet index pk sk addr => (createWallet ctx st index pk sk addr).map Prod.fst
  | .transferAccountOwnership accountIndex newOwner newIdx =>
      (transferAccountOwnership ctx st accountIndex newOwner newIdx).map Prod.fst
  | .enterEncumbranceContract accountIndex assets policyAddr expiry ok =>
      wEnterEncumbranceContract ctx st accountIndex assets policyAddr expiry ok
  | .requestKeyExport accountIndex cpk ct nonce =>
      requestKeyExport env ctx st accountIndex cpk ct nonce
  | .destroyExportedKey accountIndex => destroyExportedKey ctx st accountIndex

/-- Transactional dispatch: a failed operation reverts to the pre-call
state. -/
def wstepTotal (env : WEnv) (ctx : WCtx) (op : WOp) (st : WState) : WState :=
  (wstep env ctx op st).getD st

/-- Replay a trace of dispatched operations. -/
def wRunFrom (env : WEnv) : WState → List (WCtx × WOp) → WState
  | st, [] => st
  | st, (ctx, op) :: rest => wRunFrom env (wstepTotal env ctx op st) rest

/-- Freshness of the host randomness consumed by one operation: a newly
generated key pair is nonempty, its derived private index and address
are nonzero and unused.  (Secp256k1 key generation from 32 fresh random
bytes yields this with overwhelming probability; a legal trace is one
where the host randomness did not collide.) -/
def wFreshB (st : WState) (op : WOp) : Bool :=
  match op with
  | .createWallet _ pk sk addr =>
      decide (pk ≠ []) && decide (sk ≠ []) && decide (bytes32ToUint pk ≠ 0) &&
      decide (st.publicKeys (bytes32ToUint pk) = []) &&
      decide ((st.accounts addr).privateIndex = 0) && decide (addr ≠ 0)
  | .transferAccountOwnership _ _ _ => true
  | .enterEncumbranceContract _ _ _ _ _ => true
  | .requestKeyExport _ _ _ _ => true
  | .destroyExportedKey _ => true

/-- Trace legality from a state together with lower bounds on the block
number and timestamp: contexts are chronological (block numbers and
timestamps nondecreasing) and each step's randomness is fresh. -/
def wTraceOK (env : WEnv) : WState → Nat → Nat → List (WCtx × WOp) → Bool
  | _, _, _, [] => true
  | st, b, t, (ctx, op) :: rest =>
      b ≤ ctx.blockNumber && t ≤ ctx.timestamp && wFreshB st op &&
      wTraceOK env (wstepTotal env ctx op st) ctx.blockNumber ctx.timestamp rest

/-- The timestamp lower bound after replaying a trace. -/
def wLastT : Nat → List (WCtx × WOp) → Nat
  | t, [] => t
  | _, (ctx, _) :: rest => wLastT ctx.timestamp rest

/-! ### Registry invariants

`WBound st pi` says private index `pi` denotes a created wallet whose
address still points back at it.  The bundle `WInv st t` collects the
reachability invariants needed for the key-export safety property:
every lease expiry of a wallet is bounded by its recorded maximum, and
a wallet whose export flag is set saw all its leases expire strictly
before time `t`. -/

/-- Private index `pi` denotes a created wallet: it is nonzero, its
recorded address is nonzero and maps back to `pi`, and its public key
is stored. -/
def WBound (st : WState) (pi : Nat) : Prop :=
  pi ≠ 0 ∧ (st.accounts (st.addresses pi)).privateIndex = pi ∧
    st.publicKeys pi ≠ [] ∧ st.addresses pi ≠ 0

/-- Reachability invariants of the wallet registry, relative to a lower
bound `t` on the next observable timestamp. -/
structure WInv (st : WState) (t : Nat) : Prop where
  liveBound : ∀ a idx, st.selfAccounts a idx ≠ 0 → WBound st (st.selfAccounts a idx)
  boundExpiry : ∀ pi, WBound st pi →
    ∀ asset, st.encumbranceExpiry (st.addresses pi) asset ≤ st.maxEncumbranceExpiry pi
  unboundExpiry : ∀ adr, (st.accounts adr).privateIndex = 0 →
    ∀ asset, st.encumbranceExpiry adr asset = 0
  freshClean : ∀ pi, st.publicKeys pi = [] → st.maxEncumbranceExpiry pi = 0
  exportInv : ∀ pi, (st.keyExportRequested pi)._bool = true →
    WBound st pi ∧ st.maxEncumbranceExpiry pi < t

/-- A concrete executable instantiation of the abstract host
primitives, used to evaluate the wallet operations on sample inputs. -/
def wEnv0 : WEnv where
  keccakB := fun _ => 42
  deriveSymmetricKey := fun _ _ => 7
  encryptB := fun _ _ m => m
  decryptB := fun _ _ c => some c
  signP := fun _ h => [h]
  abiEncodeExportTag := fun a => [a]
  typedDataHash := fun _ _ _ => 5

/-- A sample two-step trace: principal 1 creates a wallet at block 1 and
requests its key export at block 2. -/
def wTrExport : List (WCtx × WOp) :=
  [(⟨1, 1, 10⟩, .createWallet 3 (List.replicate 31 0 ++ [1]) [2] 9),
   (⟨1, 2, 20⟩, .requestKeyExport 3 5 [9] 0)]

/-- The state produced by a sample successful `createWallet` call. -/
def c8CreatedState : WState :=
  ((createWallet ⟨1, 1, 10⟩ (wInitial 0 0) 3 (List.replicate 31 0 ++ [1]) [2] 9).getD
    (wInitial 0 0, false)).1

/-- The state of the sample wallet after its exported key was destroyed
at block 3. -/
def c10DestroyedState : WState :=
  (destroyExportedKey ⟨1, 3, 30⟩ (wRunFrom wEnv0 (wInitial 0 0) wTrExport) 3).getD
    (wInitial 0 0)

/-! ## Ethereum-transaction policy (`EthTransactionPolicy.sol`) -/

/-- The fields of `Type2TxMessage` read by the policy. -/
structure Type2TxMessage where
  chainId : Nat
  nonce : Nat
  gasLimit : Nat
  maxFeePerGas : Nat
  destination : Nat
  amount : Nat
  payload : List Nat

/-- The struct `Type2TxMessageSigned`. -/
structure Type2TxMessageSigned where
  transaction : Type2TxMessage
  r : Nat
  s : Nat
  v : Nat

/-- Translated from `TransactionProof` (ProvethVerifier): the policy reads only the RLP
block header; the Merkle-Patricia path is opaque to it. -/
structure TransactionProof where
  rlpBlockHeader : List Nat
  proofBody : Nat

/-- Translated from `EthTransactionPolicy.Commitment`. -/
structure Commitment where
  blockNumber : Nat
  subPolicy : Nat

/-- Translated from `EthTransactionPolicy.PendingBalance`. -/
structure PendingBalance where
  amount : Nat
  blockNumber : Nat

/-- Translated from `EthTransactionPolicy.DepositCommitment`. -/
structure DepositCommitment where
  account : Nat
  timestamp : Nat

/-- The storage of `EthTransactionPolicy`, mirroring the contract's
state variables.  `walletContract` is fixed by the constructor. -/
structure PState where
  walletOwner : Nat
  walletContract : Nat
  subPolicyEthBalance : Nat → Nat → Nat → Nat
  encumbranceSubContract : Nat → Nat → Nat
  encumbranceExpiry : Nat → Nat → Nat
  transactionCounts : Nat → Nat → Nat
  depositTransactions : Nat → DepositCommitment
  depositTransactionsSeen : Nat → Bool
  ourExpiration : Nat → Nat
  manager : Nat → Nat
  committedTransactions : Nat → Nat → Commitment
  signedIncludedTransactions : Nat → Nat → List Nat
  depositControl : Nat → Bool
  subPolicyLocalBalanceFinalized : Nat → Nat → Nat → Nat
  subPolicyLocalBalancePending : Nat → Nat → Nat → PendingBalance
  lastUnlimitedSigner : Nat → Nat → Nat → Nat

/-- The policy state right after the constructor ran against wallet
contract `w`. -/
def pInitial (w : Nat) : PState where
  walletOwner := 0
  walletContract := w
  subPolicyEthBalance := fun _ _ _ => 0
  encumbranceSubContract := fun _ _ => 0
  encumbranceExpiry := fun _ _ => 0
  transactionCounts := fun _ _ => 0
  depositTransactions := fun _ => ⟨0, 0⟩
  depositTransactionsSeen := fun _ => false
  ourExpiration := fun _ => 0
  manager := fun _ => 0
  committedTransactions := fun _ _ => ⟨0, 0⟩
  signedIncludedTransactions := fun _ _ => []
  depositControl := fun _ => false
  subPolicyLocalBalanceFinalized := fun _ _ _ => 0
  subPolicyLocalBalancePending := fun _ _ _ => ⟨0, 0⟩
  lastUnlimitedSigner := fun _ _ _ => 0

/-- Chain and host primitives used by the policy, abstracted: Keccak,
the RLP serializers of `TransactionSerializer.sol`, the proof verifier
(`validateTxProof` returns the included transaction bytes or reverts),
the block-hash oracle, ECDSA recovery, the block-header timestamp field
(RLP index 9), the ABI encoding of a destination asset, the EIP-712
deposit-commitment digest, and the wallet contract's `signMessage`. -/
structure PEnv where
  keccakB : List Nat → Nat
  serializeTransaction : Type2TxMessage → List Nat
  serializeSignedTransaction : Type2TxMessageSigned → List Nat
  validateTxProof : TransactionProof → Option (List Nat)
  getBlockHash : Nat → Nat
  tryRecover : Nat → Nat → Nat → Nat → Option Nat
  headerTimestamp : List Nat → Nat
  abiEncodeAsset : Nat → Nat → List Nat
  commitDigest : Nat → Nat → Nat
  ecrecover : Nat → List Nat → Option Nat
  walletSignMessage : Nat → List Nat → Option (List Nat)

/-- Translated from `EthTransactionPolicy.getEncodedAsset`:
`keccak256(abi.encode(chainId, to))`. -/
def getEncodedAsset (env : PEnv) (chainId toAddr : Nat) : Nat :=
  env.keccakB (env.abiEncodeAsset chainId toAddr)

/-- Translated from `EthTransactionPolicy.findAssetFromTx`. -/
def findAssetFromTx (env : PEnv) (transaction : Type2TxMessage) : Nat :=
  getEncodedAsset env transaction.chainId transaction.destination

/-- Translated from `EthTransactionPolicy.estimateInclusionProofCost`. -/
def estimateInclusionProofCost (length : Nat) : Nat :=
  ((length / 1024) * 86853 + 289032) * 100 * 1000000000

/-- Translated from `EthTransactionPolicy.getMaxTransactionCost`:
`amount + gasLimit * maxFeePerGas`. -/
def getMaxTransactionCost (transaction : Type2TxMessage) : Nat :=
  transaction.amount + transaction.gasLimit * transaction.maxFeePerGas

/-- The Keccak hash of the serialized signed transaction after the
`v -= 27` adjustment both proof entry points perform; `none` when
`v < 27` (the Solidity subtraction would revert). -/
def signedTxHashOf (env : PEnv) (signedTx : Type2TxMessageSigned) : Option Nat :=
  if 27 ≤ signedTx.v then
    some (env.keccakB (env.serializeSignedTransaction { signedTx with v := signedTx.v - 27 }))
  else none

/-- Storage write for a doubly nested Solidity mapping. -/
def mapUpd2 {β : Type} (f : Nat → Nat → β) (a b : Nat) (v : β) : Nat → Nat → β :=
  fun x y => if x = a ∧ y = b then v else f x y

/-- Storage write for a triply nested Solidity mapping. -/
def mapUpd3 {β : Type} (f : Nat → Nat → Nat → β) (a b c : Nat) (v : β) :
    Nat → Nat → Nat → β :=
  fun x y z => if x = a ∧ y = b ∧ z = c then v else f x y z

/-- The call context of a policy operation; for `depositLocalFunds` the
attached `msg.value` is passed as an operation argument. -/
abbrev PCtx := WCtx

/-- Translated from `keccak256(TransactionSerializer.serializeTransaction(transaction))`,
the unsigned transaction hash used to key transaction commitments. -/
def unsignedTxHashOf (env : PEnv) (transaction : Type2TxMessage) : Nat :=
  env.keccakB (env.serializeTransaction transaction)

/-- Translated from `EthTransactionPolicy.commitToDeposit`: first-writer-wins commitment
of a foreign-chain deposit hash to the calling sub-policy. -/
def commitToDeposit (ctx : PCtx) (st : PState) (signedTxHash : Nat) : Option PState :=
  if (st.depositTransactions signedTxHash).account = 0 then
    some { st with
      depositTransactions :=
        mapUpd st.depositTransactions signedTxHash ⟨ctx.caller, ctx.timestamp⟩ }
  else none

/-- Translated from `EthTransactionPolicy.isDepositCommitted` (view): checks the
EIP-712 commitment-proof signature against `walletOwner`, then reports
whether the hash is committed to the claimed account. -/
def isDepositCommitted (env : PEnv) (st : PState) (proofAccount proofTxHash : Nat)
    (signature : List Nat) : Option Bool :=
  match env.ecrecover (env.commitDigest proofAccount proofTxHash) signature with
  | none => none
  | some recovered =>
      if recovered = st.walletOwner then
        some (decide ((st.depositTransactions proofTxHash).account = proofAccount))
      else none

/-- Translated from `EthTransactionPolicy.depositFunds`: after proof validation and
authentication, credits the committed sub-policy's ETH balance for the
deposit's `(destination, chainId)` with the transferred amount.  No
block-hash-oracle query occurs in this entry point. -/
def depositFunds (env : PEnv) (ctx : PCtx) (st : PState)
    (signedTx : Type2TxMessageSigned) (inclusionProof : TransactionProof) :
    Option PState :=
  if 27 ≤ signedTx.v then
    match env.validateTxProof inclusionProof with
    | none => none
    | some includedTx =>
        match signedTxHashOf env signedTx with
        | none => none
        | some signedTxHash =>
            if ctx.caller = 0 then none
            else if ctx.caller ≠ (st.depositTransactions signedTxHash).account then none
            else if st.depositTransactionsSeen signedTxHash = true then none
            else if env.keccakB includedTx ≠ signedTxHash then none
            else if st.depositControl ctx.caller = true ∧
                env.headerTimestamp inclusionProof.rlpBlockHeader <
                  (st.depositTransactions signedTxHash).timestamp then none
            else match env.tryRecover (unsignedTxHashOf env signedTx.transaction)
                signedTx.r signedTx.s (signedTx.v % 256) with
            | none => none
            | some _ =>
                if st.subPolicyEthBalance (st.depositTransactions signedTxHash).account
                    signedTx.transaction.destination signedTx.transaction.chainId +
                    signedTx.transaction.amount < uintMax then
                  some { st with
                    subPolicyEthBalance := mapUpd3 st.subPolicyEthBalance
                      ((st.depositTransactions signedTxHash).account)
                      signedTx.transaction.destination signedTx.transaction.chainId
                      (st.subPolicyEthBalance (st.depositTransactions signedTxHash).account
                        signedTx.transaction.destination signedTx.transaction.chainId +
                        signedTx.transaction.amount)
                    depositTransactionsSeen :=
                      mapUpd st.depositTransactionsSeen signedTxHash true }
                else none
  else none

/-- Translated from `EthTransactionPolicy.finalizeLocalFunds`: moves the caller's
pending local collateral to the finalized balance once the pending block
is strictly in the past. -/
def finalizeLocalFunds (ctx : PCtx) (st : PState) (account chainId : Nat) :
    Option PState :=
  if (st.subPolicyLocalBalancePending ctx.caller account chainId).blockNumber = 0 then none
  else if (st.subPolicyLocalBalancePending ctx.caller account chainId).blockNumber
      < ctx.blockNumber then
    if st.subPolicyLocalBalanceFinalized ctx.caller account chainId +
        (st.subPolicyLocalBalancePending ctx.caller account chainId).amount < uintMax then
      some { st with
        subPolicyLocalBalanceFinalized := mapUpd3 st.subPolicyLocalBalanceFinalized
          ctx.caller account chainId
          (st.subPolicyLocalBalanceFinalized ctx.caller account chainId +
            (st.subPolicyLocalBalancePending ctx.caller account chainId).amount)
        subPolicyLocalBalancePending := mapUpd3 st.subPolicyLocalBalancePending
          ctx.caller account chainId ⟨0, 0⟩ }
    else none
  else none

/-- Translated from `EthTransactionPolicy.depositLocalFunds` (payable; `msgValue` is the
attached value): accumulates a same-block pending entry, or finalizes a
strictly older pending entry and starts a new one. -/
def depositLocalFunds (ctx : PCtx) (st : PState) (account chainId msgValue : Nat) :
    Option PState :=
  if msgValue = 0 then none
  else if (st.subPolicyLocalBalancePending ctx.caller account chainId).blockNumber ≠ 0 then
    if (st.subPolicyLocalBalancePending ctx.caller account chainId).blockNumber
        < ctx.blockNumber then
      match finalizeLocalFunds ctx st account chainId with
      | none => none
      | some st1 =>
          some { st1 with
            subPolicyLocalBalancePending := mapUpd3 st1.subPolicyLocalBalancePending
              ctx.caller account chainId ⟨msgValue, ctx.blockNumber⟩ }
    else
      if (st.subPolicyLocalBalancePending ctx.caller account chainId).amount + msgValue
          < uintMax then
        some { st with
          subPolicyLocalBalancePending := mapUpd3 st.subPolicyLocalBalancePending
            ctx.caller account chainId
            ⟨(st.subPolicyLocalBalancePending ctx.caller account chainId).amount + msgValue,
              (st.subPolicyLocalBalancePending ctx.caller account chainId).blockNumber⟩ }
      else none
  else
    some { st with
      subPolicyLocalBalancePending := mapUpd3 st.subPolicyLocalBalancePending
        ctx.caller account chainId ⟨msgValue, ctx.blockNumber⟩ }

/-- Translated from `EthTransactionPolicy.notifyEncumbranceEnrollment` (the Policy SPI
hook): only the wallet contract may call; requires an unexpired
enrollment carrying asset `0x02`; records the account's expiration and
manager and overwrites the contract-wide `walletOwner`. -/
def notifyEncumbranceEnrollment (ctx : PCtx) (st : PState) (owner account : Nat)
    (assets : List Nat) (expiration managerAddr : Nat) : Option PState :=
  if ctx.caller ≠ st.walletContract then none
  else if expiration < ctx.timestamp then none
  else if assets.any (fun a => a = 0x02) then
    some { st with
      ourExpiration := mapUpd st.ourExpiration account expiration
      manager := mapUpd st.manager account managerAddr
      walletOwner := owner }
  else none

/-- The per-destination lease-installation loop of the policy's
`enterEncumbranceContract`: each `(chainId, to)` asset must be unleased
or expired; installs the sub-policy and expiry. -/
def pEncumberDestinations (env : PEnv) (ctx : PCtx) (account subPolicy expiry : Nat) :
    PState → List (Nat × Nat) → Option PState
  | st, [] => some st
  | st, d :: rest =>
      if st.encumbranceExpiry account (getEncodedAsset env d.1 d.2) = 0 ∨
          st.encumbranceExpiry account (getEncodedAsset env d.1 d.2) < ctx.timestamp then
        pEncumberDestinations env ctx account subPolicy expiry
          { st with
            encumbranceSubContract := mapUpd2 st.encumbranceSubContract account
              (getEncodedAsset env d.1 d.2) subPolicy
            encumbranceExpiry := mapUpd2 st.encumbranceExpiry account
              (getEncodedAsset env d.1 d.2) expiry }
          rest
      else none

/-- The `lastUnlimitedSigner` loop of the policy's
`enterEncumbranceContract`, run when signature commitments are not
required. -/
def setUnlimitedSigners (account subPolicy : Nat) :
    PState → List (Nat × Nat) → PState
  | st, [] => st
  | st, d :: rest =>
      setUnlimitedSigners account subPolicy
        { st with
          lastUnlimitedSigner :=
            mapUpd3 st.lastUnlimitedSigner account d.1 d.2 subPolicy }
        rest

/-- Translated from `EthTransactionPolicy.enterEncumbranceContract` (the sub-lease entry
point).  `data` decodes to the two booleans; the final external
notification of the sub-policy may revert, its outcome is
`subPolicyAccepts`. -/
def pEnterEncumbranceContract (env : PEnv) (ctx : PCtx) (st : PState) (account : Nat)
    (destinations : List (Nat × Nat)) (subPolicy expiry : Nat)
    (sigCommitmentsRequired usesDepositControl subPolicyAccepts : Bool) :
    Option PState :=
  if ctx.timestamp < expiry then
    if subPolicy = 0 then none
    else if ctx.caller ≠ st.manager account then none
    else if expiry ≤ st.ourExpiration account then
      match pEncumberDestinations env ctx account subPolicy expiry st destinations with
      | none => none
      | some st1 =>
          if subPolicyAccepts then
            if sigCommitmentsRequired then
              some { st1 with
                depositControl := mapUpd st1.depositControl subPolicy usesDepositControl }
            else
              some { setUnlimitedSigners account subPolicy st1 destinations with
                depositControl := mapUpd
                  (setUnlimitedSigners account subPolicy st1 destinations).depositControl
                  subPolicy usesDepositControl }
          else none
    else none
  else none

/-- The sub-policy whose ETH balance `proveTransactionInclusion`
debits: the current leaseholder when it equals the recorded
`lastUnlimitedSigner`; otherwise the committed sub-policy of a matching
transaction commitment when one exists; otherwise the recorded
`lastUnlimitedSigner`. -/
def proveDebitTarget (env : PEnv) (st : PState)
    (signerAccount chainId dest unsignedTxHash : Nat) : Nat :=
  if st.lastUnlimitedSigner signerAccount chainId dest ≠
      st.encumbranceSubContract signerAccount (getEncodedAsset env chainId dest) then
    if (st.committedTransactions signerAccount unsignedTxHash).subPolicy = 0 then
      st.lastUnlimitedSigner signerAccount chainId dest
    else (st.committedTransactions signerAccount unsignedTxHash).subPolicy
  else st.encumbranceSubContract signerAccount (getEncodedAsset env chainId dest)

/-- Translated from `EthTransactionPolicy.proveTransactionInclusion`: verifies the
header against the oracle and the proof against the signed transaction,
enforces and increments the signer's nonce, debits the selected
sub-policy's ETH balance by `min(maxCost, balance)` (saturating), sets
`lastUnlimitedSigner` to the current leaseholder, records the
transaction and reimburses the prover from the sub-policy's local
collateral, saturating at zero. -/
def proveTransactionInclusion (env : PEnv) (ctx : PCtx) (st : PState)
    (signedTx : Type2TxMessageSigned) (inclusionProof : TransactionProof)
    (proofBlockNumber : Nat) : Option PState :=
  match env.tryRecover (unsignedTxHashOf env signedTx.transaction)
      signedTx.r signedTx.s (signedTx.v % 256) with
  | none => none
  | some signerAccount =>
      if env.keccakB inclusionProof.rlpBlockHeader ≠ env.getBlockHash proofBlockNumber then
        none
      else if 27 ≤ signedTx.v then
        match env.validateTxProof inclusionProof with
        | none => none
        | some includedTx =>
            match signedTxHashOf env signedTx with
            | none => none
            | some signedTxHash =>
                if env.keccakB includedTx ≠ signedTxHash then none
                else if signedTx.transaction.nonce ≠
                    st.transactionCounts signerAccount signedTx.transaction.chainId then none
                -- checked-arithmetic guards of the Solidity 0.8 sums and
                -- products this entry point evaluates
                else if st.transactionCounts signerAccount signedTx.transaction.chainId + 1
                    ≥ uintMax then none
                else if getMaxTransactionCost signedTx.transaction ≥ uintMax then none
                else if estimateInclusionProofCost signedTx.transaction.payload.length
                    ≥ uintMax then none
                else
                  some { st with
                    transactionCounts := mapUpd2 st.transactionCounts signerAccount
                      signedTx.transaction.chainId
                      (st.transactionCounts signerAccount signedTx.transaction.chainId + 1)
                    subPolicyEthBalance := mapUpd3 st.subPolicyEthBalance
                      (proveDebitTarget env st signerAccount signedTx.transaction.chainId
                        signedTx.transaction.destination
                        (unsignedTxHashOf env signedTx.transaction))
                      signerAccount signedTx.transaction.chainId
                      (if st.subPolicyEthBalance
                          (proveDebitTarget env st signerAccount signedTx.transaction.chainId
                            signedTx.transaction.destination
                            (unsignedTxHashOf env signedTx.transaction))
                          signerAccount signedTx.transaction.chainId >
                          getMaxTransactionCost signedTx.transaction then
                        st.subPolicyEthBalance
                          (proveDebitTarget env st signerAccount signedTx.transaction.chainId
                            signedTx.transaction.destination
                            (unsignedTxHashOf env signedTx.transaction))
                          signerAccount signedTx.transaction.chainId -
                          getMaxTransactionCost signedTx.transaction
                      else 0)
                    lastUnlimitedSigner := mapUpd3 st.lastUnlimitedSigner signerAccount
                      signedTx.transaction.chainId signedTx.transaction.destination
                      (st.encumbranceSubContract signerAccount
                        (getEncodedAsset env signedTx.transaction.chainId
                          signedTx.transaction.destination))
                    signedIncludedTransactions := mapUpd2 st.signedIncludedTransactions
                      signerAccount
                      (proveDebitTarget env st signerAccount signedTx.transaction.chainId
                        signedTx.transaction.destination
                        (unsignedTxHashOf env signedTx.transaction))
                      (st.signedIncludedTransactions signerAccount
                        (proveDebitTarget env st signerAccount signedTx.transaction.chainId
                          signedTx.transaction.destination
                          (unsignedTxHashOf env signedTx.transaction)) ++
                        [unsignedTxHashOf env signedTx.transaction])
                    subPolicyLocalBalanceFinalized := mapUpd3
                      st.subPolicyLocalBalanceFinalized
                      (proveDebitTarget env st signerAccount signedTx.transaction.chainId
                        signedTx.transaction.destination
                        (unsignedTxHashOf env signedTx.transaction))
                      signerAccount signedTx.transaction.chainId
                      (st.subPolicyLocalBalanceFinalized
                        (proveDebitTarget env st signerAccount signedTx.transaction.chainId
                          signedTx.transaction.destination
                          (unsignedTxHashOf env signedTx.transaction))
                        signerAccount signedTx.transaction.chainId -
                        min (estimateInclusionProofCost signedTx.transaction.payload.length)
                          (st.subPolicyLocalBalanceFinalized
                            (proveDebitTarget env st signerAccount
                              signedTx.transaction.chainId signedTx.transaction.destination
                              (unsignedTxHashOf env signedTx.transaction))
                            signerAccount signedTx.transaction.chainId)) }
      else none

/-- Translated from `EthTransactionPolicy.releaseCommitmentRequirement` (manager-only):
sets `lastUnlimitedSigner` for the destination to the currently enrolled
sub-policy while its lease is unexpired.  (The source's self-comparison
of the enrolled sub-policy on line 485 is vacuously true and has no
effect.) -/
def releaseCommitmentRequirement (env : PEnv) (ctx : PCtx) (st : PState)
    (account destChainId destTo : Nat) : Option PState :=
  if ctx.caller ≠ st.manager account then none
  else if ctx.timestamp < st.encumbranceExpiry account
      (getEncodedAsset env destChainId destTo) then
    some { st with
      lastUnlimitedSigner := mapUpd3 st.lastUnlimitedSigner account destChainId destTo
        (st.encumbranceSubContract account (getEncodedAsset env destChainId destTo)) }
  else none

/-- Translated from `EthTransactionPolicy.commitToTransaction` (sub-policy call):
overwrites the nonce with the authoritative `transactionCounts` entry
and records the commitment under the resulting unsigned-tx hash. -/
def commitToTransaction (env : PEnv) (ctx : PCtx) (st : PState) (account : Nat)
    (transaction : Type2TxMessage) : Option PState :=
  if st.encumbranceSubContract account (findAssetFromTx env transaction) = ctx.caller then
    if ctx.timestamp < st.encumbranceExpiry account (findAssetFromTx env transaction) then
      some { st with
        committedTransactions := mapUpd2 st.committedTransactions account
          (unsignedTxHashOf env
            { transaction with nonce := st.transactionCounts account transaction.chainId })
          ⟨ctx.blockNumber, ctx.caller⟩ }
    else none
  else none

/-- The tail of `EthTransactionPolicy.signTransaction` after the
commitment discipline: leasehold, expiry, nonce and ETH-balance checks,
then the delegation to the wallet contract's `signMessage`. -/
def signTransactionChecks (env : PEnv) (ctx : PCtx) (st : PState) (account : Nat)
    (transaction : Type2TxMessage) : Option (List Nat) :=
  if st.encumbranceSubContract account (findAssetFromTx env transaction) = ctx.caller then
    if ctx.timestamp < st.encumbranceExpiry account (findAssetFromTx env transaction) then
      if transaction.nonce = st.transactionCounts account transaction.chainId then
        if getMaxTransactionCost transaction < uintMax then
          if st.subPolicyEthBalance ctx.caller account transaction.chainId ≥
              getMaxTransactionCost transaction then
            env.walletSignMessage account (env.serializeTransaction transaction)
          else none
        else none
      else none
    else none
  else none

/-- Translated from `EthTransactionPolicy.signTransaction` (view): requires prepaid
local collateral covering the eventual inclusion proof, the commitment
discipline when the caller is not the recorded unlimited signer, the
unexpired lease, the authoritative nonce and a sufficient ETH balance;
then delegates to the wallet's `signMessage` on the serialized
transaction.  Being a view function it never changes state. -/
def signTransaction (env : PEnv) (ctx : PCtx) (st : PState) (account : Nat)
    (transaction : Type2TxMessage) : Option (List Nat) :=
  if estimateInclusionProofCost transaction.payload.length ≥ uintMax then none
  else if estimateInclusionProofCost transaction.payload.length ≤
      st.subPolicyLocalBalanceFinalized ctx.caller account transaction.chainId then
    if st.lastUnlimitedSigner account transaction.chainId transaction.destination
        ≠ ctx.caller then
      if (st.committedTransactions account (unsignedTxHashOf env transaction)).subPolicy
          = ctx.caller then
        if ctx.blockNumber >
            (st.committedTransactions account (unsignedTxHashOf env transaction)).blockNumber then
          signTransactionChecks env ctx st account transaction
        else none
      else none
    else signTransactionChecks env ctx st account transaction
  else none

/-! ### Policy traces and the deposit/debit ledger -/

/-- The externally callable operations of the policy.  `signTransaction`
is a view call and never changes state; it is included so that traces
can mention it. -/
inductive POp where
  | commitToDeposit (signedTxHash : Nat)
  | depositFunds (signedTx : Type2TxMessageSigned) (inclusionProof : TransactionProof)
  | finalizeLocalFunds (account chainId : Nat)
  | depositLocalFunds (account chainId msgValue : Nat)
  | notifyEncumbranceEnrollment (owner account : Nat) (assets : List Nat)
      (expiration managerAddr : Nat)
  | enterEncumbranceContract (account : Nat) (destinations : List (Nat × Nat))
      (subPolicy expiry : Nat) (sigCommitmentsRequired usesDepositControl subPolicyAccepts : Bool)
  | proveTransactionInclusion (signedTx : Type2TxMessageSigned)
      (inclusionProof : TransactionProof) (proofBlockNumber : Nat)
  | releaseCommitmentRequirement (account destChainId destTo : Nat)
  | commitToTransaction (account : Nat) (transaction : Type2TxMessage)
  | signTransaction (account : Nat) (transaction : Type2TxMessage)

/-- One dispatched policy operation. -/
def pstep (env : PEnv) (ctx : PCtx) (op : POp) (st : PState) : Option PState :=
  match op with
  | .commitToDeposit h => commitToDeposit ctx st h
  | .depositFunds stx proof => depositFunds env ctx st stx proof
  | .finalizeLocalFunds account chainId => finalizeLocalFunds ctx st account chainId
  | .depositLocalFunds account chainId v => depositLocalFunds ctx st account chainId v
  | .notifyEncumbranceEnrollment owner account assets expiration managerAddr =>
      notifyEncumbranceEnrollment ctx st owner account assets expiration managerAddr
  | .enterEncumbranceContract account dests subPolicy expiry sig dep ok =>
      pEnterEncumbranceContract env ctx st account dests subPolicy expiry sig dep ok
  | .proveTransactionInclusion stx proof pbn =>
      proveTransactionInclusion env ctx st stx proof pbn
  | .releaseCommitmentRequirement account c t =>
      releaseCommitmentRequirement env ctx st account c t
  | .commitToTransaction account tx => commitToTransaction env ctx st account tx
  | .signTransaction account tx => (signTransaction env ctx st account tx).map (fun _ => st)

/-- Transactional dispatch: a failed operation reverts. -/
def pstepTotal (env : PEnv) (ctx : PCtx) (op : POp) (st : PState) : PState :=
  (pstep env ctx op st).getD st

/-- Replay a trace of dispatched policy operations. -/
def pRunFrom (env : PEnv) : PState → List (PCtx × POp) → PState
  | st, [] => st
  | st, (ctx, op) :: rest => pRunFrom env (pstepTotal env ctx op st) rest

/-- Trace legality: chronological contexts. -/
def pTraceOK : Nat → Nat → List (PCtx × POp) → Bool
  | _, _, [] => true
  | b, t, (ctx, _) :: rest =>
      b ≤ ctx.blockNumber && t ≤ ctx.timestamp &&
        pTraceOK ctx.blockNumber ctx.timestamp rest

/-- The sub-policy holding the deposit commitment of a signed deposit
transaction (zero when the hash cannot be formed). -/
def depositCommitter (env : PEnv) (st : PState) (stx : Type2TxMessageSigned) : Nat :=
  match signedTxHashOf env stx with
  | none => 0
  | some h => (st.depositTransactions h).account

/-- The signer `proveTransactionInclusion` recovers (zero when recovery
fails, in which case the call fails anyway). -/
def proveSignerOf (env : PEnv) (stx : Type2TxMessageSigned) : Nat :=
  (env.tryRecover (unsignedTxHashOf env stx.transaction) stx.r stx.s (stx.v % 256)).getD 0

/-- The ETH amount a single operation credits to sub-policy `sp` for
`(account, chainId)`: the deposited value of a successful `depositFunds`
call whose commitment belongs to `sp` and whose deposit transaction
targets `account` on `chainId`; zero otherwise. -/
def ethCreditDelta (env : PEnv) (ctx : PCtx) (op : POp) (st : PState)
    (sp account chainId : Nat) : Nat :=
  match op with
  | .depositFunds stx proof =>
      if (pstep env ctx (.depositFunds stx proof) st).isSome ∧
          depositCommitter env st stx = sp ∧
          stx.transaction.destination = account ∧ stx.transaction.chainId = chainId then
        stx.transaction.amount
      else 0
  | .commitToDeposit _ => 0
  | .finalizeLocalFunds _ _ => 0
  | .depositLocalFunds _ _ _ => 0
  | .notifyEncumbranceEnrollment _ _ _ _ _ => 0
  | .enterEncumbranceContract _ _ _ _ _ _ _ => 0
  | .proveTransactionInclusion _ _ _ => 0
  | .releaseCommitmentRequirement _ _ _ => 0
  | .commitToTransaction _ _ => 0
  | .signTransaction _ _ => 0

/-- The `maxCost` amount the claim debits for a successful
`proveTransactionInclusion` call whose selected sub-policy is `sp` and
whose recovered signer is `account` on `chainId`; zero otherwise. -/
def ethMaxCostDebitDelta (env : PEnv) (ctx : PCtx) (op : POp) (st : PState)
    (sp account chainId : Nat) : Nat :=
  match op with
  | .proveTransactionInclusion stx proof pbn =>
      if (pstep env ctx (.proveTransactionInclusion stx proof pbn) st).isSome ∧
          proveSignerOf env stx = account ∧
          proveDebitTarget env st (proveSignerOf env stx) stx.transaction.chainId
            stx.transaction.destination (unsignedTxHashOf env stx.transaction) = sp ∧
          stx.transaction.chainId = chainId then
        getMaxTransactionCost stx.transaction
      else 0
  | .commitToDeposit _ => 0
  | .depositFunds _ _ => 0
  | .finalizeLocalFunds _ _ => 0
  | .depositLocalFunds _ _ _ => 0
  | .notifyEncumbranceEnrollment _ _ _ _ _ => 0
  | .enterEncumbranceContract _ _ _ _ _ _ _ => 0
  | .releaseCommitmentRequirement _ _ _ => 0
  | .commitToTransaction _ _ => 0
  | .signTransaction _ _ => 0

/-- The ETH amount a single operation actually debits from sub-policy
`sp` for `(account, chainId)`: `min(maxCost, balance)` for a successful
`proveTransactionInclusion` call that selects `sp`; zero otherwise. -/
def ethActualDebitDelta (env : PEnv) (ctx : PCtx) (op : POp) (st : PState)
    (sp account chainId : Nat) : Nat :=
  match op with
  | .proveTransactionInclusion stx proof pbn =>
      if (pstep env ctx (.proveTransactionInclusion stx proof pbn) st).isSome ∧
          proveSignerOf env stx = account ∧
          proveDebitTarget env st (proveSignerOf env stx) stx.transaction.chainId
            stx.transaction.destination (unsignedTxHashOf env stx.transaction) = sp ∧
          stx.transaction.chainId = chainId then
        min (getMaxTransactionCost stx.transaction) (st.subPolicyEthBalance sp account chainId)
      else 0
  | .commitToDeposit _ => 0
  | .depositFunds _ _ => 0
  | .finalizeLocalFunds _ _ => 0
  | .depositLocalFunds _ _ _ => 0
  | .notifyEncumbranceEnrollment _ _ _ _ _ => 0
  | .enterEncumbranceContract _ _ _ _ _ _ _ => 0
  | .releaseCommitmentRequirement _ _ _ => 0
  | .commitToTransaction _ _ => 0
  | .signTransaction _ _ => 0

/-- Total ETH credited to `(sp, account, chainId)` along a trace. -/
def ethCredits (env : PEnv) : PState → List (PCtx × POp) → Nat → Nat → Nat → Nat
  | _, [], _, _, _ => 0
  | st, (ctx, op) :: rest, sp, account, chainId =>
      ethCreditDelta env ctx op st sp account chainId +
        ethCredits env (pstepTotal env ctx op st) rest sp account chainId

/-- Total `maxCost` debits charged to `(sp, account, chainId)` along a
trace (the quantity the conservation claim uses). -/
def ethMaxCostDebits (env : PEnv) : PState → List (PCtx × POp) → Nat → Nat → Nat → Nat
  | _, [], _, _, _ => 0
  | st, (ctx, op) :: rest, sp, account, chainId =>
      ethMaxCostDebitDelta env ctx op st sp account chainId +
        ethMaxCostDebits env (pstepTotal env ctx op st) rest sp account chainId

/-- Total ETH actually debited from `(sp, account, chainId)` along a
trace. -/
def ethActualDebits (env : PEnv) : PState → List (PCtx × POp) → Nat → Nat → Nat → Nat
  | _, [], _, _, _ => 0
  | st, (ctx, op) :: rest, sp, account, chainId =>
      ethActualDebitDelta env ctx op st sp account chainId +
        ethActualDebits env (pstepTotal env ctx op st) rest sp account chainId

/-- A concrete executable instantiation of the policy's abstract chain
primitives: constant hashes, a proof verifier that accepts, an oracle
matching the constant header hash, and ECDSA recovery yielding
account 40. -/
def pEnv0 : PEnv where
  keccakB := fun _ => 42
  serializeTransaction := fun _ => []
  serializeSignedTransaction := fun _ => []
  validateTxProof := fun _ => some []
  getBlockHash := fun _ => 42
  tryRecover := fun _ _ _ _ => some 40
  headerTimestamp := fun _ => 0
  abiEncodeAsset := fun c t => [c, t]
  commitDigest := fun _ _ => 0
  ecrecover := fun _ _ => some 0
  walletSignMessage := fun _ _ => some [1]

/-- The signed deposit transaction of the sample trace: 10 wei into
account 40 on chain 1. -/
def cexDepositTx : Type2TxMessageSigned :=
  ⟨⟨1, 0, 0, 0, 40, 10, []⟩, 0, 0, 27⟩

/-- The signed outbound transaction of the sample trace: from account
40 to destination 20 on chain 1, nonce 0, value 5, gas limit 2, max fee
10, so `maxCost = 25`. -/
def cexOutboundTx : Type2TxMessageSigned :=
  ⟨⟨1, 0, 2, 10, 20, 5, []⟩, 0, 0, 27⟩

/-- A sample legal trace: the wallet contract (50) enrolls account 40
with manager 30; the manager sub-leases destination `(1, 20)` to
sub-policy 4 without commitment or deposit control; sub-policy 4
commits to and proves a 10-wei deposit; then a relayer (70) proves
inclusion of an outbound transaction of `maxCost` 25. -/
def pTrCex : List (PCtx × POp) :=
  [(⟨50, 1, 10⟩, .notifyEncumbranceEnrollment 60 40 [0x02] 1000 30),
   (⟨30, 1, 10⟩, .enterEncumbranceContract 40 [(1, 20)] 4 1000 false false true),
   (⟨4, 2, 20⟩, .commitToDeposit 42),
   (⟨4, 2, 20⟩, .depositFunds cexDepositTx ⟨[], 0⟩),
   (⟨70, 3, 30⟩, .proveTransactionInclusion cexOutboundTx ⟨[], 0⟩ 5)]

/-- The sample policy state right before the inclusion proof of the
outbound transaction (the first four steps of the sample trace). -/
def c4State : PState := pRunFrom pEnv0 (pInitial 50) (List.take 4 pTrCex)

/-- The sample policy state right after that inclusion proof. -/
def c4OutState : PState :=
  (proveTransactionInclusion pEnv0 ⟨70, 3, 30⟩ c4State cexOutboundTx ⟨[], 0⟩ 5).getD c4State

/-- A sample policy state in which sub-policy 4 can sign for account 40:
it is the recorded unlimited signer and leaseholder of `(1, 20)`, has
prefunded local collateral, and holds an ETH balance covering the
transaction's `maxCost`. -/
def c5State : PState :=
  { pInitial 50 with
    subPolicyLocalBalanceFinalized :=
      mapUpd3 (pInitial 50).subPolicyLocalBalanceFinalized 4 40 1 1000000000000000000
    lastUnlimitedSigner := mapUpd3 (pInitial 50).lastUnlimitedSigner 40 1 20 4
    encumbranceSubContract := mapUpd2 (pInitial 50).encumbranceSubContract 40 42 4
    encumbranceExpiry := mapUpd2 (pInitial 50).encumbranceExpiry 40 42 1000
    subPolicyEthBalance := mapUpd3 (pInitial 50).subPolicyEthBalance 4 40 1 25 }

/-- The sample policy state after the wallet contract enrolls account
40 under owner 60, and then account 41 under owner 61. -/
def c9State1 : PState :=
  (notifyEncumbranceEnrollment ⟨50, 1, 10⟩ (pInitial 50) 60 40 [0x02] 1000 30).getD
    (pInitial 50)

def c9State2 : PState :=
  (notifyEncumbranceEnrollment ⟨50, 2, 20⟩ c9State1 61 41 [0x02] 1000 31).getD c9State1

/-- An environment whose Keccak gives the block header `[9, 9]` the
hash 99 while the block-hash oracle reports 42 for every block. -/
def c1Env : PEnv :=
  { pEnv0 with keccakB := fun bs => if bs = [9, 9] then 99 else 42 }

/-- The policy state after sub-policy 4 committed to deposit hash 42. -/
def c1State : PState :=
  (commitToDeposit ⟨4, 2, 20⟩ (pInitial 50) 42).getD (pInitial 50)

/-- The state after the deposit is accepted under the mismatching
header. -/
def c1OutState : PState :=
  (depositFunds c1Env ⟨4, 2, 20⟩ c1State cexDepositTx ⟨[9, 9], 0⟩).getD c1State

/-- An environment in which the proof verifier's returned transaction
bytes hash to 43 while the expected signed-transaction hash is 42. -/
def c1BadEnv : PEnv :=
  { pEnv0 with
    keccakB := fun bs => if bs = [] then 43 else 42
    serializeSignedTransaction := fun _ => [1] }

/-! ## Verified properties

The theorems below settle the specified properties of the embedded
operations: the helper lemmas first, then one theorem (with witness or
counterexample) per property. -/

theorem mapUpd_same {β : Type} (f : Nat → β) (a : Nat) (b : β) :
    mapUpd f a b a = b := by
  simp [mapUpd]

theorem mapUpd_other {β : Type} (f : Nat → β) (a : Nat) (b : β) (x : Nat)
    (h : x ≠ a) : mapUpd f a b x = f x := by
  simp [mapUpd, h]

theorem getPrivateIndex_spec {ctx : WCtx} {st : WState} {accountIndex pi : Nat}
    (h : getPrivateIndex ctx st accountIndex = some pi) :
    ctx.caller ≠ 0 ∧ st.selfAccounts ctx.caller accountIndex = pi ∧ pi ≠ 0 ∧
      (st.accounts (st.addresses pi)).blockNumber < ctx.blockNumber := by
  unfold getPrivateIndex at h
  split at h
  · exact absurd h (by simp)
  split at h
  · exact absurd h (by simp)
  split at h
  · rename_i h1 h2 h3
    cases h
    exact ⟨h1, rfl, h2, h3⟩
  · exact absurd h (by simp)

theorem wInv_mono {st : WState} {t t' : Nat} (h : WInv st t) (ht : t ≤ t') :
    WInv st t' where
  liveBound := h.liveBound
  boundExpiry := h.boundExpiry
  unboundExpiry := h.unboundExpiry
  freshClean := h.freshClean
  exportInv := fun pi hb => ⟨(h.exportInv pi hb).1, lt_of_lt_of_le (h.exportInv pi hb).2 ht⟩

theorem wInv_initial (xpk xsk t : Nat) : WInv (wInitial xpk xsk) t where
  liveBound := by intro a idx h; simp [wInitial] at h
  boundExpiry := by intro pi hb; exact absurd rfl hb.2.2.1
  unboundExpiry := by intro adr _ asset; rfl
  freshClean := by intro pi _; rfl
  exportInv := by intro pi h; simp [wInitial] at h

theorem wInv_createWallet {ctx : WCtx} {st : WState} {index : Nat}
    {pk sk : List Nat} {addr : Nat} {st' : WState} {b : Bool}
    (hInv : WInv st ctx.timestamp)
    (hFresh : wFreshB st (.createWallet index pk sk addr) = true)
    (h : createWallet ctx st index pk sk addr = some (st', b)) :
    WInv st' ctx.timestamp := by
  simp only [wFreshB, Bool.and_eq_true, decide_eq_true_eq] at hFresh
  obtain ⟨⟨⟨⟨⟨hpk, hsk⟩, hpi0⟩, hfreshPk⟩, hfreshAcc⟩, haddr0⟩ := hFresh
  unfold createWallet at h
  split at h
  · exact absurd h (by simp)
  split at h
  · cases h; exact hInv
  split at h
  · exact absurd h (by simp)
  rename_i hc0 hempty hlen
  push_neg at hempty
  cases h
  set pi0 := bytes32ToUint pk with hpi0def
  -- facts about existing wallets vs the fresh one
  have hpkNe : ∀ pi, st.publicKeys pi ≠ [] → pi ≠ pi0 := by
    intro pi hne heq; exact hne (heq ▸ hfreshPk)
  have haddrNe : ∀ pi, WBound st pi → st.addresses pi ≠ addr := by
    intro pi hb heq
    have := hb.2.1
    rw [heq, hfreshAcc] at this
    exact hb.1 this.symm
  have hbound' : ∀ pi, WBound st pi → WBound { st with
      selfAccounts := fun a i => if a = ctx.caller ∧ i = index then pi0 else st.selfAccounts a i
      publicKeys := mapUpd st.publicKeys pi0 pk
      privateKeys := mapUpd st.privateKeys pi0 sk
      addresses := mapUpd st.addresses pi0 addr
      attendedWallets := mapUpd st.attendedWallets ctx.caller
        (st.attendedWallets ctx.caller ++ [⟨index, ctx.blockNumber⟩])
      accounts := mapUpd st.accounts addr ⟨ctx.caller, index, pi0, 0⟩ } pi := by
    intro pi hb
    have hne : pi ≠ pi0 := hpkNe pi hb.2.2.1
    refine ⟨hb.1, ?_, ?_, ?_⟩
    · simp only [mapUpd_other _ _ _ _ hne, mapUpd_other _ _ _ _ (haddrNe pi hb)]
      exact hb.2.1
    · simp only [mapUpd_other _ _ _ _ hne]; exact hb.2.2.1
    · simp only [mapUpd_other _ _ _ _ hne]; exact hb.2.2.2
  have hboundNew : WBound { st with
      selfAccounts := fun a i => if a = ctx.caller ∧ i = index then pi0 else st.selfAccounts a i
      publicKeys := mapUpd st.publicKeys pi0 pk
      privateKeys := mapUpd st.privateKeys pi0 sk
      addresses := mapUpd st.addresses pi0 addr
      attendedWallets := mapUpd st.attendedWallets ctx.caller
        (st.attendedWallets ctx.caller ++ [⟨index, ctx.blockNumber⟩])
      accounts := mapUpd st.accounts addr ⟨ctx.caller, index, pi0, 0⟩ } pi0 := by
    refine ⟨hpi0, ?_, ?_, ?_⟩
    · simp [mapUpd_same]
    · simp [mapUpd_same, hpk]
    · simp [mapUpd_same, haddr0]
  have hboundBack : ∀ pi, WBound { st with
      selfAccounts := fun a i => if a = ctx.caller ∧ i = index then pi0 else st.selfAccounts a i
      publicKeys := mapUpd st.publicKeys pi0 pk
      privateKeys := mapUpd st.privateKeys pi0 sk
      addresses := mapUpd st.addresses pi0 addr
      attendedWallets := mapUpd st.attendedWallets ctx.caller
        (st.attendedWallets ctx.caller ++ [⟨index, ctx.blockNumber⟩])
      accounts := mapUpd st.accounts addr ⟨ctx.caller, index, pi0, 0⟩ } pi →
      pi ≠ pi0 → WBound st pi := by
    intro pi hb hne
    refine ⟨hb.1, ?_, ?_, ?_⟩
    · have h2 := hb.2.1
      simp only [mapUpd_other _ _ _ _ hne] at h2 ⊢
      by_cases hA : st.addresses pi = addr
      · rw [hA, mapUpd_same] at h2
        exact absurd h2.symm hne
      · rwa [mapUpd_other _ _ _ _ hA] at h2
    · have h3 := hb.2.2.1
      simpa only [mapUpd_other _ _ _ _ hne] using h3
    · have h4 := hb.2.2.2
      simpa only [mapUpd_other _ _ _ _ hne] using h4
  constructor
  · -- liveBound
    intro a idx hsa
    simp only at hsa ⊢
    by_cases hcase : a = ctx.caller ∧ idx = index
    · simp only [if_pos hcase] at hsa ⊢
      exact hboundNew
    · simp only [if_neg hcase] at hsa ⊢
      exact hbound' _ (hInv.liveBound a idx hsa)
  · -- boundExpiry
    intro pi hb asset
    simp only
    by_cases hne : pi = pi0
    · subst hne
      simp only [mapUpd_same]
      rw [hInv.unboundExpiry addr hfreshAcc asset]
      exact Nat.zero_le _
    · have hbOld := hboundBack pi hb hne
      simp only [mapUpd_other _ _ _ _ hne]
      exact hInv.boundExpiry pi hbOld asset
  · -- unboundExpiry
    intro adr hacc asset
    simp only at hacc ⊢
    by_cases hA : adr = addr
    · subst hA
      rw [mapUpd_same] at hacc
      exact absurd hacc hpi0
    · rw [mapUpd_other _ _ _ _ hA] at hacc
      exact hInv.unboundExpiry adr hacc asset
  · -- freshClean
    intro pi hpkEmpty
    simp only at hpkEmpty ⊢
    by_cases hne : pi = pi0
    · subst hne
      rw [mapUpd_same] at hpkEmpty
      exact absurd hpkEmpty hpk
    · rw [mapUpd_other _ _ _ _ hne] at hpkEmpty
      exact hInv.freshClean pi hpkEmpty
  · -- exportInv
    intro pi hflag
    simp only at hflag
    have hold := hInv.exportInv pi hflag
    have hne : pi ≠ pi0 := hpkNe pi hold.1.2.2.1
    exact ⟨hbound' pi hold.1, hold.2⟩

theorem wInv_transfer {ctx : WCtx} {st : WState} {accountIndex newOwner newIdx : Nat}
    {st' : WState} {r : Nat} (hInv : WInv st ctx.timestamp)
    (h : transferAccountOwnership ctx st accountIndex newOwner newIdx = some (st', r)) :
    WInv st' ctx.timestamp := by
  unfold transferAccountOwnership at h
  split at h
  · exact absurd h (by simp)
  split at h
  · exact absurd h (by simp)
  rename_i hno hpi privateIndex hgp
  split at h
  · exact absurd h (by simp)
  rename_i hexp
  cases h
  -- the transferred wallet is live, hence bound
  have hlive := getPrivateIndex_spec hgp
  have hbpi : WBound st privateIndex := by
    have := hInv.liveBound ctx.caller accountIndex (hlive.2.1 ▸ hlive.2.2.1)
    rwa [hlive.2.1] at this
  -- the privateIndex field of every account record is unchanged
  have haccPi : ∀ adr, ((mapUpd st.accounts (st.addresses privateIndex)
      ⟨newOwner, newIdx, (st.accounts (st.addresses privateIndex)).privateIndex,
        ctx.blockNumber⟩) adr).privateIndex = (st.accounts adr).privateIndex := by
    intro adr
    by_cases hA : adr = st.addresses privateIndex
    · subst hA; rw [mapUpd_same]
    · rw [mapUpd_other _ _ _ _ hA]
  have hboundIff : ∀ pi, WBound { st with
      selfAccounts := fun a i =>
        if a = newOwner ∧ i = newIdx then privateIndex
        else if a = ctx.caller ∧ i = accountIndex then 0
        else st.selfAccounts a i
      accounts := mapUpd st.accounts (st.addresses privateIndex)
        ⟨newOwner, newIdx, (st.accounts (st.addresses privateIndex)).privateIndex,
          ctx.blockNumber⟩
      attendedWallets := mapUpd st.attendedWallets newOwner
        (st.attendedWallets newOwner ++ [⟨newIdx, ctx.blockNumber⟩]) } pi ↔
      WBound st pi := by
    intro pi
    unfold WBound
    simp only [haccPi]
  constructor
  · intro a idx hsa
    simp only at hsa
    rw [hboundIff]
    by_cases h1 : a = newOwner ∧ idx = newIdx
    · simp only [if_pos h1] at hsa ⊢
      exact hbpi
    · simp only [if_neg h1] at hsa ⊢
      by_cases h2 : a = ctx.caller ∧ idx = accountIndex
      · simp only [if_pos h2] at hsa
        exact absurd rfl hsa
      · simp only [if_neg h2] at hsa ⊢
        exact hInv.liveBound a idx hsa
  · intro pi hb asset
    rw [hboundIff] at hb
    exact hInv.boundExpiry pi hb asset
  · intro adr hacc asset
    simp only [haccPi] at hacc
    exact hInv.unboundExpiry adr hacc asset
  · intro pi hpkE
    exact hInv.freshClean pi hpkE
  · intro pi hflag
    simp only at hflag
    have hold := hInv.exportInv pi hflag
    exact ⟨(hboundIff pi).mpr hold.1, hold.2⟩

theorem wInv_requestKeyExport {env : WEnv} {ctx : WCtx} {st : WState}
    {accountIndex cpk : Nat} {ct : List Nat} {nonce : Nat} {st' : WState}
    (hInv : WInv st ctx.timestamp)
    (h : requestKeyExport env ctx st accountIndex cpk ct nonce = some st') :
    WInv st' ctx.timestamp := by
  simp only [requestKeyExport] at h
  split at h
  · exact absurd h (by simp)
  rename_i privateIndex hgp
  split at h
  swap
  · exact absurd h (by simp)
  rename_i hts
  split at h
  · exact absurd h (by simp)
  rename_i hnotYet
  split at h
  · exact absurd h (by simp)
  rename_i cell hcell
  split at h
  · exact absurd h (by simp)
  rename_i tag htag
  split at h
  · exact absurd h (by simp)
  rename_i walletAddr hwa
  split at h
  swap
  · exact absurd h (by simp)
  cases h
  have hlive := getPrivateIndex_spec hgp
  have hbpi : WBound st privateIndex := by
    have := hInv.liveBound ctx.caller accountIndex (hlive.2.1 ▸ hlive.2.2.1)
    rwa [hlive.2.1] at this
  have hcellVal : cell = ⟨true, ctx.blockNumber⟩ := by
    unfold updateBool at hcell
    split at hcell
    · cases hcell; rfl
    · exact absurd hcell (by simp)
  have hboundSame : ∀ pi, WBound { st with
      keyExportRequested := mapUpd st.keyExportRequested privateIndex cell
      keyExportCounterparty := mapUpd st.keyExportCounterparty privateIndex cpk } pi
      ↔ WBound st pi := by
    intro pi; unfold WBound; simp only
  constructor
  · intro a idx hsa
    simp only at hsa ⊢
    exact (hboundSame _).mpr (hInv.liveBound a idx hsa)
  · intro pi hb asset
    exact hInv.boundExpiry pi ((hboundSame pi).mp hb) asset
  · intro adr hacc asset
    exact hInv.unboundExpiry adr hacc asset
  · intro pi hpkE
    exact hInv.freshClean pi hpkE
  · intro pi hflag
    simp only at hflag
    by_cases hpi : pi = privateIndex
    · subst hpi
      exact ⟨(hboundSame _).mpr hbpi, hts⟩
    · rw [mapUpd_other _ _ _ _ hpi] at hflag
      have hold := hInv.exportInv pi hflag
      exact ⟨(hboundSame _).mpr hold.1, hold.2⟩

theorem wInv_destroy {ctx : WCtx} {st : WState} {accountIndex : Nat} {st' : WState}
    (hInv : WInv st ctx.timestamp)
    (h : destroyExportedKey ctx st accountIndex = some st') :
    WInv st' ctx.timestamp := by
  unfold destroyExportedKey at h
  split at h
  · exact absurd h (by simp)
  rename_i privateIndex hgp
  split at h
  swap
  · exact absurd h (by simp)
  cases h
  have hboundSame : ∀ pi, WBound { st with
      privateKeys := mapUpd st.privateKeys privateIndex destroyedKeyBytes } pi ↔
      WBound st pi := by
    intro pi; unfold WBound; simp only
  constructor
  · intro a idx hsa
    exact (hboundSame _).mpr (hInv.liveBound a idx hsa)
  · intro pi hb asset
    exact hInv.boundExpiry pi ((hboundSame pi).mp hb) asset
  · intro adr hacc asset
    exact hInv.unboundExpiry adr hacc asset
  · intro pi hpkE
    exact hInv.freshClean pi hpkE
  · intro pi hflag
    have hold := hInv.exportInv pi hflag
    exact ⟨(hboundSame _).mpr hold.1, hold.2⟩

theorem encumberAssets_fields {ctx : WCtx} {account policyAddr expiry : Nat} :
    ∀ {assets : List Nat} {st st1 : WState},
    encumberAssets ctx account policyAddr expiry st assets = some st1 →
    st1.selfAccounts = st.selfAccounts ∧ st1.publicKeys = st.publicKeys ∧
      st1.addresses = st.addresses ∧ st1.accounts = st.accounts ∧
      st1.keyExportRequested = st.keyExportRequested ∧
      st1.maxEncumbranceExpiry = st.maxEncumbranceExpiry := by
  intro assets
  induction assets with
  | nil =>
      intro st st1 h
      cases h
      exact ⟨rfl, rfl, rfl, rfl, rfl, rfl⟩
  | cons asset rest ih =>
      intro st st1 h
      unfold encumberAssets at h
      by_cases hc : st.encumbranceExpiry account asset = 0 ∨
          st.encumbranceExpiry account asset < ctx.timestamp
      · rw [if_pos hc] at h
        split at h
        · exact absurd h (by simp)
        · obtain ⟨e1, e2, e3, e4, e5, e6⟩ := ih h
          exact ⟨e1, e2, e3, e4, e5, e6⟩
      · rw [if_neg hc] at h
        exact absurd h (by simp)

theorem encumberAssets_expiry_other {ctx : WCtx} {account policyAddr expiry : Nat} :
    ∀ {assets : List Nat} {st st1 : WState},
    encumberAssets ctx account policyAddr expiry st assets = some st1 →
    ∀ a b, a ≠ account → st1.encumbranceExpiry a b = st.encumbranceExpiry a b := by
  intro assets
  induction assets with
  | nil =>
      intro st st1 h a b hne
      cases h; rfl
  | cons asset rest ih =>
      intro st st1 h a b hne
      unfold encumberAssets at h
      by_cases hc : st.encumbranceExpiry account asset = 0 ∨
          st.encumbranceExpiry account asset < ctx.timestamp
      · rw [if_pos hc] at h
        split at h
        · exact absurd h (by simp)
        · rename_i cell hcell
          rw [ih h a b hne]
          simp only
          rw [if_neg (by intro hcon; exact hne hcon.1)]
      · rw [if_neg hc] at h
        exact absurd h (by simp)

theorem encumberAssets_expiry_self {ctx : WCtx} {account policyAddr expiry : Nat} :
    ∀ {assets : List Nat} {st st1 : WState},
    encumberAssets ctx account policyAddr expiry st assets = some st1 →
    ∀ b, st1.encumbranceExpiry account b = st.encumbranceExpiry account b ∨
      st1.encumbranceExpiry account b = expiry := by
  intro assets
  induction assets with
  | nil =>
      intro st st1 h b
      cases h; exact Or.inl rfl
  | cons asset rest ih =>
      intro st st1 h b
      unfold encumberAssets at h
      by_cases hc : st.encumbranceExpiry account asset = 0 ∨
          st.encumbranceExpiry account asset < ctx.timestamp
      · rw [if_pos hc] at h
        split at h
        · exact absurd h (by simp)
        · rename_i cell hcell
          rcases ih h b with hmid | hmid
          · rw [hmid]
            by_cases hb : b = asset
            · subst hb
              simp
            · simp only
              rw [if_neg (by intro hcon; exact hb hcon.2)]
              exact Or.inl rfl
          · exact Or.inr hmid
      · rw [if_neg hc] at h
        exact absurd h (by simp)

theorem wInv_enter {ctx : WCtx} {st : WState} {accountIndex : Nat}
    {assets : List Nat} {policyAddr expiry : Nat} {ok : Bool} {st' : WState}
    (hInv : WInv st ctx.timestamp)
    (h : wEnterEncumbranceContract ctx st accountIndex assets policyAddr expiry ok = some st') :
    WInv st' ctx.timestamp := by
  simp only [wEnterEncumbranceContract] at h
  split at h
  swap
  · exact absurd h (by simp)
  split at h
  · exact absurd h (by simp)
  split at h
  · exact absurd h (by simp)
  rename_i privateIndex hgp
  split at h
  · exact absurd h (by simp)
  rename_i hNoExport
  split at h
  · exact absurd h (by simp)
  rename_i st1 hloop
  split at h
  swap
  · exact absurd h (by simp)
  cases h
  have hlive := getPrivateIndex_spec hgp
  have hbpi : WBound st privateIndex := by
    have := hInv.liveBound ctx.caller accountIndex (hlive.2.1 ▸ hlive.2.2.1)
    rwa [hlive.2.1] at this
  obtain ⟨hsa, hpk, haddrs, hacc, hker, hmax⟩ := encumberAssets_fields hloop
  have hboundIff : ∀ pi, WBound { st1 with
      maxEncumbranceExpiry := mapUpd st1.maxEncumbranceExpiry privateIndex
        (max (st1.maxEncumbranceExpiry privateIndex) expiry) } pi ↔ WBound st pi := by
    intro pi
    unfold WBound
    simp only [hsa, hpk, haddrs, hacc]
  constructor
  · intro a idx hsaNe
    have hsaNe' : st.selfAccounts a idx ≠ 0 := by simpa only [hsa] using hsaNe
    have hres := (hboundIff _).mpr (hInv.liveBound a idx hsaNe')
    simpa only [hsa] using hres
  · intro pi hb asset
    have hbOld := (hboundIff pi).mp hb
    simp only [haddrs]
    by_cases hA : st.addresses pi = st.addresses privateIndex
    · -- both bound and sharing an address forces pi = privateIndex
      have hpieq : pi = privateIndex := by
        have h1 := hbOld.2.1
        have h2 := hbpi.2.1
        rw [hA] at h1
        rw [h1] at h2
        exact h2
      subst hpieq
      rw [hA]
      rcases encumberAssets_expiry_self hloop asset with hv | hv
      · rw [hv]
        simp only [mapUpd_same, hmax]
        exact le_max_of_le_left (hInv.boundExpiry _ hbOld asset)
      · rw [hv]
        simp only [mapUpd_same]
        exact le_max_right _ _
    · rw [encumberAssets_expiry_other hloop _ asset hA]
      by_cases hpieq : pi = privateIndex
      · subst hpieq
        exact absurd rfl hA
      · simp only [mapUpd_other _ _ _ _ hpieq, hmax]
        exact hInv.boundExpiry pi hbOld asset
  · intro adr hadr asset
    simp only [hacc] at hadr
    by_cases hA : adr = st.addresses privateIndex
    · subst hA
      exact absurd (hbpi.2.1 ▸ hadr) hbpi.1
    · rw [encumberAssets_expiry_other hloop _ asset hA]
      exact hInv.unboundExpiry adr hadr asset
  · intro pi hpkE
    simp only [hpk] at hpkE
    simp only
    by_cases hpieq : pi = privateIndex
    · subst hpieq
      exact absurd hpkE hbpi.2.2.1
    · rw [mapUpd_other _ _ _ _ hpieq, hmax]
      exact hInv.freshClean pi hpkE
  · intro pi hflag
    simp only [hker] at hflag
    have hold := hInv.exportInv pi hflag
    refine ⟨(hboundIff pi).mpr hold.1, ?_⟩
    simp only
    by_cases hpieq : pi = privateIndex
    · subst hpieq
      exact absurd hflag (by simpa using hNoExport)
    · rw [mapUpd_other _ _ _ _ hpieq, hmax]
      exact hold.2

theorem wInv_step {env : WEnv} {ctx : WCtx} {op : WOp} {st st' : WState}
    (hInv : WInv st ctx.timestamp) (hFresh : wFreshB st op = true)
    (h : wstep env ctx op st = some st') : WInv st' ctx.timestamp := by
  cases op with
  | createWallet index pk sk addr =>
      simp only [wstep, Option.map_eq_some'] at h
      obtain ⟨⟨st2, b⟩, hcw, hfst⟩ := h
      cases hfst
      exact wInv_createWallet hInv hFresh hcw
  | transferAccountOwnership accountIndex newOwner newIdx =>
      simp only [wstep, Option.map_eq_some'] at h
      obtain ⟨⟨st2, r⟩, htr, hfst⟩ := h
      cases hfst
      exact wInv_transfer hInv htr
  | enterEncumbranceContract accountIndex assets policyAddr expiry ok =>
      exact wInv_enter hInv h
  | requestKeyExport accountIndex cpk ct nonce =>
      exact wInv_requestKeyExport hInv h
  | destroyExportedKey accountIndex =>
      exact wInv_destroy hInv h

theorem wInv_stepTotal {env : WEnv} {ctx : WCtx} {op : WOp} {st : WState}
    (hInv : WInv st ctx.timestamp) (hFresh : wFreshB st op = true) :
    WInv (wstepTotal env ctx op st) ctx.timestamp := by
  unfold wstepTotal
  cases h : wstep env ctx op st with
  | none => exact hInv
  | some st' => exact wInv_step hInv hFresh h

/-- Replaying a legal trace preserves the registry invariant, relative
to the last observed timestamp. -/
theorem wInv_run (env : WEnv) : ∀ (tr : List (WCtx × WOp)) (st : WState) (b t : Nat),
    WInv st t → wTraceOK env st b t tr = true →
    WInv (wRunFrom env st tr) (wLastT t tr) := by
  intro tr
  induction tr with
  | nil =>
      intro st b t hInv _
      exact hInv
  | cons step rest ih =>
      intro st b t hInv hok
      obtain ⟨ctx, op⟩ := step
      simp only [wTraceOK, Bool.and_eq_true, decide_eq_true_eq] at hok
      obtain ⟨⟨⟨hb, ht⟩, hfresh⟩, hrest⟩ := hok
      have hInvCtx : WInv st ctx.timestamp := wInv_mono hInv ht
      have hInv' : WInv (wstepTotal env ctx op st) ctx.timestamp :=
        wInv_stepTotal hInvCtx hfresh
      exact ih (wstepTotal env ctx op st) ctx.blockNumber ctx.timestamp hInv' hrest

theorem wLastT_le_of_chrono (env : WEnv) : ∀ (tr : List (WCtx × WOp)) (st : WState)
    (b t : Nat), wTraceOK env st b t tr = true → t ≤ wLastT t tr := by
  intro tr
  induction tr with
  | nil => intro st b t _; exact le_refl t
  | cons step rest ih =>
      intro st b t hok
      obtain ⟨ctx, op⟩ := step
      simp only [wTraceOK, Bool.and_eq_true, decide_eq_true_eq] at hok
      obtain ⟨⟨⟨hb, ht⟩, hfresh⟩, hrest⟩ := hok
      exact le_trans ht (ih _ _ _ hrest)

/-- C2: once a wallet's `exportRequested` flag is finalized true (its
`requestKeyExport` succeeded in a strictly earlier block), every
subsequent `enterEncumbranceContract`, `signMessage`, `signTypedData`
and `transferAccountOwnership` call touching that wallet fails, at
every later block, for every caller and every argument.  The wallet is
identified by its private index `pi`; the signing entry points address
it by its account address `addresses pi`, the management entry points
by an owner index resolving to `pi`. -/
theorem exportRequested_blocks_operations
    (env : WEnv) (xpk xsk : Nat) (tr : List (WCtx × WOp)) (pi : Nat) (ctx' : WCtx)
    (hleg : wTraceOK env (wInitial xpk xsk) 0 0 tr = true)
    (htime : wLastT 0 tr ≤ ctx'.timestamp)
    (hexp : ((wRunFrom env (wInitial xpk xsk) tr).keyExportRequested pi)._bool = true)
    (hfin : ((wRunFrom env (wInitial xpk xsk) tr).keyExportRequested pi).pendingBlockNumber
      < ctx'.blockNumber) :
    (∀ message, signMessage env ctx' (wRunFrom env (wInitial xpk xsk) tr)
        ((wRunFrom env (wInitial xpk xsk) tr).addresses pi) message = none) ∧
    (∀ domain dataType data,
        signTypedData env ctx' (wRunFrom env (wInitial xpk xsk) tr)
          ((wRunFrom env (wInitial xpk xsk) tr).addresses pi) domain dataType data = none) ∧
    (∀ accountIndex assets policyAddr expiry ok,
        (wRunFrom env (wInitial xpk xsk) tr).selfAccounts ctx'.caller accountIndex = pi →
        wstep env ctx' (.enterEncumbranceContract accountIndex assets policyAddr expiry ok)
          (wRunFrom env (wInitial xpk xsk) tr) = none) ∧
    (∀ accountIndex newOwner newIdx,
        (wRunFrom env (wInitial xpk xsk) tr).selfAccounts ctx'.caller accountIndex = pi →
        wstep env ctx' (.transferAccountOwnership accountIndex newOwner newIdx)
          (wRunFrom env (wInitial xpk xsk) tr) = none) := by
  set st := wRunFrom env (wInitial xpk xsk) tr with hst
  have hInvT : WInv st (wLastT 0 tr) :=
    wInv_run env tr (wInitial xpk xsk) 0 0 (wInv_initial xpk xsk 0) hleg
  have hInv : WInv st ctx'.timestamp := wInv_mono hInvT htime
  obtain ⟨hbound, hmax⟩ := hInv.exportInv pi hexp
  have hexpiry : ∀ asset, st.encumbranceExpiry (st.addresses pi) asset < ctx'.timestamp :=
    fun asset => lt_of_le_of_lt (hInv.boundExpiry pi hbound asset) hmax
  refine ⟨?_, ?_, ?_, ?_⟩
  · intro message
    simp only [signMessage]
    by_cases ha : findAsset message = 0
    · rw [if_pos ha]
    · rw [if_neg ha]
      by_cases hf : isFinalizedAddress
          (st.encumbranceContract (st.addresses pi) (findAsset message))
          ctx'.blockNumber ctx'.caller = true
      · rw [if_pos hf, if_neg (by have := hexpiry (findAsset message); omega)]
      · rw [if_neg hf]
  · intro domain dataType data
    simp only [signTypedData]
    by_cases ha : findEip712Asset env domain = 0
    · rw [if_pos ha]
    · rw [if_neg ha]
      by_cases hf : isFinalizedAddress
          (st.encumbranceContract (st.addresses pi) (findEip712Asset env domain))
          ctx'.blockNumber ctx'.caller = true
      · rw [if_pos hf, if_neg (by have := hexpiry (findEip712Asset env domain); omega)]
      · rw [if_neg hf]
  · intro accountIndex assets policyAddr expiry ok hsa
    simp only [wstep, wEnterEncumbranceContract]
    by_cases h1 : ctx'.timestamp < expiry
    · rw [if_pos h1]
      by_cases h2 : policyAddr = 0
      · rw [if_pos h2]
      · rw [if_neg h2]
        cases hgp : getPrivateIndex ctx' st accountIndex with
        | none => simp [hgp]
        | some pi2 =>
            have hspec := getPrivateIndex_spec hgp
            have hpieq : pi2 = pi := by rw [← hspec.2.1, hsa]
            subst hpieq
            simp [hgp, hexp]
    · rw [if_neg h1]
  · intro accountIndex newOwner newIdx hsa
    simp only [wstep, transferAccountOwnership]
    by_cases h1 : newOwner = 0
    · rw [if_pos h1]; rfl
    · rw [if_neg h1]
      cases hgp : getPrivateIndex ctx' st accountIndex with
      | none => simp [hgp]
      | some pi2 =>
          have hspec := getPrivateIndex_spec hgp
          have hpieq : pi2 = pi := by rw [← hspec.2.1, hsa]
          subst hpieq
          simp [hgp, hexp]

theorem exportRequested_blocks_operations_witness :
    wTraceOK wEnv0 (wInitial 0 0) 0 0 wTrExport = true ∧
    wLastT 0 wTrExport ≤ (30 : Nat) ∧
    ((wRunFrom wEnv0 (wInitial 0 0) wTrExport).keyExportRequested 1)._bool = true ∧
    ((wRunFrom wEnv0 (wInitial 0 0) wTrExport).keyExportRequested 1).pendingBlockNumber < 3 ∧
    signMessage wEnv0 ⟨1, 3, 30⟩ (wRunFrom wEnv0 (wInitial 0 0) wTrExport)
      ((wRunFrom wEnv0 (wInitial 0 0) wTrExport).addresses 1) [0x19, 0x45] = none ∧
    signTypedData wEnv0 ⟨1, 3, 30⟩ (wRunFrom wEnv0 (wInitial 0 0) wTrExport)
      ((wRunFrom wEnv0 (wInitial 0 0) wTrExport).addresses 1) ⟨[1]⟩ [2] [3] = none ∧
    wstep wEnv0 ⟨1, 3, 30⟩ (.enterEncumbranceContract 3 [0x02] 5 99 true)
      (wRunFrom wEnv0 (wInitial 0 0) wTrExport) = none ∧
    wstep wEnv0 ⟨1, 3, 30⟩ (.transferAccountOwnership 3 6 77)
      (wRunFrom wEnv0 (wInitial 0 0) wTrExport) = none := by
  refine ⟨by decide, by decide, by decide, by decide, ?_, ?_, ?_, ?_⟩
  · exact (exportRequested_blocks_operations wEnv0 0 0 wTrExport 1 ⟨1, 3, 30⟩
      (by decide) (by decide) (by decide) (by decide)).1 [0x19, 0x45]
  · exact (exportRequested_blocks_operations wEnv0 0 0 wTrExport 1 ⟨1, 3, 30⟩
      (by decide) (by decide) (by decide) (by decide)).2.1 ⟨[1]⟩ [2] [3]
  · exact (exportRequested_blocks_operations wEnv0 0 0 wTrExport 1 ⟨1, 3, 30⟩
      (by decide) (by decide) (by decide) (by decide)).2.2.1 3 [0x02] 5 99 true (by decide)
  · exact (exportRequested_blocks_operations wEnv0 0 0 wTrExport 1 ⟨1, 3, 30⟩
      (by decide) (by decide) (by decide) (by decide)).2.2.2 3 6 77 (by decide)

/-- C6: for every delayed-finalization cell (address or bool variant),
an update fails when the cell's last-write block equals the current
block, so the second of two same-block updates fails; reading the
finalized value fails unless the last write is strictly older than the
current block; and the equality check returns false, without erroring,
while the cell is pending, and otherwise compares the stored value. -/
theorem delayedFinalization_semantics :
    (∀ (s : AddressStatus) (b v : Nat), s.pendingBlockNumber = b →
      updateAddress s b v = none) ∧
    (∀ (s : AddressStatus) (b v v' : Nat) (s' : AddressStatus),
      updateAddress s b v = some s' → updateAddress s' b v' = none) ∧
    (∀ (s : AddressStatus) (b : Nat), ¬ s.pendingBlockNumber < b →
      getFinalizedAddress s b = none) ∧
    (∀ (s : AddressStatus) (b : Nat), s.pendingBlockNumber < b →
      getFinalizedAddress s b = some s._address) ∧
    (∀ (s : AddressStatus) (b v : Nat), ¬ s.pendingBlockNumber < b →
      isFinalizedAddress s b v = false) ∧
    (∀ (s : AddressStatus) (b v : Nat), s.pendingBlockNumber < b →
      (isFinalizedAddress s b v = true ↔ s._address = v)) ∧
    (∀ (s : BoolStatus) (b : Nat) (v : Bool), s.pendingBlockNumber = b →
      updateBool s b v = none) ∧
    (∀ (s : BoolStatus) (b : Nat) (v v' : Bool) (s' : BoolStatus),
      updateBool s b v = some s' → updateBool s' b v' = none) ∧
    (∀ (s : BoolStatus) (b : Nat), ¬ s.pendingBlockNumber < b →
      getFinalizedBool s b = none) ∧
    (∀ (s : BoolStatus) (b : Nat), s.pendingBlockNumber < b →
      getFinalizedBool s b = some s._bool) ∧
    (∀ (s : BoolStatus) (b : Nat) (v : Bool), ¬ s.pendingBlockNumber < b →
      isFinalizedBool s b v = false) ∧
    (∀ (s : BoolStatus) (b : Nat) (v : Bool), s.pendingBlockNumber < b →
      (isFinalizedBool s b v = true ↔ s._bool = v)) := by
  refine ⟨?_, ?_, ?_, ?_, ?_, ?_, ?_, ?_, ?_, ?_, ?_, ?_⟩
  · intro s b v h
    unfold updateAddress
    rw [if_neg (by omega)]
  · intro s b v v' s' h
    unfold updateAddress at h ⊢
    split at h
    · cases h
      rw [if_neg (by simp)]
    · exact absurd h (by simp)
  · intro s b h
    unfold getFinalizedAddress
    rw [if_neg h]
  · intro s b h
    unfold getFinalizedAddress
    rw [if_pos h]
  · intro s b v h
    unfold isFinalizedAddress
    rw [if_pos (by omega)]
  · intro s b v h
    unfold isFinalizedAddress
    rw [if_neg (by omega)]
    simp
  · intro s b v h
    unfold updateBool
    rw [if_neg (by omega)]
  · intro s b v v' s' h
    unfold updateBool at h ⊢
    split at h
    · cases h
      rw [if_neg (by simp)]
    · exact absurd h (by simp)
  · intro s b h
    unfold getFinalizedBool
    rw [if_neg h]
  · intro s b h
    unfold getFinalizedBool
    rw [if_pos h]
  · intro s b v h
    unfold isFinalizedBool
    rw [if_pos (by omega)]
  · intro s b v h
    unfold isFinalizedBool
    rw [if_neg (by omega)]
    simp

theorem delayedFinalization_semantics_witness :
    (AddressStatus.pendingBlockNumber ⟨3, 5⟩ = 5 ∧
      updateAddress ⟨3, 5⟩ 5 9 = none) ∧
    (updateAddress ⟨3, 4⟩ 5 9 = some ⟨9, 5⟩ ∧ updateAddress ⟨9, 5⟩ 5 8 = none) ∧
    (¬ (5 : Nat) < 5 ∧ getFinalizedBool ⟨true, 5⟩ 5 = none) ∧
    ((5 : Nat) < 6 ∧ (isFinalizedBool ⟨true, 5⟩ 6 true = true ↔ true = true)) := by
  refine ⟨⟨by decide, ?_⟩, ⟨by rfl, ?_⟩, ⟨by decide, ?_⟩, ⟨by decide, ?_⟩⟩
  · exact delayedFinalization_semantics.1 ⟨3, 5⟩ 5 9 (by decide)
  · exact delayedFinalization_semantics.2.1 ⟨3, 4⟩ 5 9 8 ⟨9, 5⟩ (by rfl)
  · exact delayedFinalization_semantics.2.2.2.2.2.2.2.2.1 ⟨true, 5⟩ 5 (by decide)
  · exact delayedFinalization_semantics.2.2.2.2.2.2.2.2.2.2.2 ⟨true, 5⟩ 6 true (by decide)

/-- C7: `findAsset` is a pure function of the payload bytes: payloads
starting `0x19 0x01` classify to the zero tag, `0x19 0x45` to `0x1945`,
a first byte `0x02` to `0x02`, and everything else (including the empty
payload and the one-byte payload `0x19`) to the zero tag. -/
theorem findAsset_classification :
    (∀ t : List Nat, findAsset (0x19 :: 0x01 :: t) = 0) ∧
    (∀ t : List Nat, findAsset (0x19 :: 0x45 :: t) = 0x1945) ∧
    (∀ t : List Nat, findAsset (0x02 :: t) = 0x02) ∧
    (∀ m : List Nat, (∀ t, m ≠ 0x19 :: 0x01 :: t) → (∀ t, m ≠ 0x19 :: 0x45 :: t) →
      (∀ t, m ≠ 0x02 :: t) → findAsset m = 0) := by
  refine ⟨?_, ?_, ?_, ?_⟩
  · intro t
    simp [findAsset]
  · intro t
    simp [findAsset]
  · intro t
    simp [findAsset]
  · intro m h1901 h1945 h02
    rcases m with _ | ⟨a, _ | ⟨b, t⟩⟩
    · rfl
    · have ha2 : a ≠ 0x02 := by
        intro h
        exact h02 [] (by rw [h])
      by_cases h19 : a = 0x19
      · subst h19
        simp [findAsset]
      · simp [findAsset, h19, ha2]
    · have ha2 : a ≠ 0x02 := by
        intro h
        exact h02 (b :: t) (by rw [h])
      by_cases h19 : a = 0x19
      · subst h19
        have hb1 : b ≠ 0x01 := by
          intro h
          exact h1901 t (by rw [h])
        have hb45 : b ≠ 0x45 := by
          intro h
          exact h1945 t (by rw [h])
        simp [findAsset, hb1, hb45]
      · simp [findAsset, h19, ha2]

theorem findAsset_classification_witness :
    findAsset [0x19, 0x01, 7] = 0 ∧ findAsset [0x19, 0x45] = 0x1945 ∧
    findAsset [0x02, 0xaa] = 0x02 ∧
    ((∀ t, [0x19] ≠ 0x19 :: 0x01 :: t) ∧ (∀ t, [0x19] ≠ 0x19 :: 0x45 :: t) ∧
      (∀ t, [0x19] ≠ 0x02 :: t) ∧ findAsset [0x19] = 0) ∧
    ((∀ t, ([] : List Nat) ≠ 0x19 :: 0x01 :: t) ∧ findAsset [] = 0) := by
  refine ⟨findAsset_classification.1 [7], findAsset_classification.2.1 [],
    findAsset_classification.2.2.1 [0xaa],
    ⟨by simp, by simp, by simp, ?_⟩, ⟨by simp, ?_⟩⟩
  · exact findAsset_classification.2.2.2 [0x19] (by simp) (by simp) (by simp)
  · exact findAsset_classification.2.2.2 [] (by simp) (by simp) (by simp)

/-- C8: `createWallet` is idempotent per `(caller, accountIndex)`: when
a wallet already exists under the pair the call returns `false` with the
state unchanged; a successful fresh creation returns `true`, stores the
generated key pair under the derived private index, installs ownership
`(caller, accountIndex)` and appends one attended-wallet entry for the
caller. -/
theorem createWallet_idempotent (ctx : WCtx) (st : WState) (index : Nat)
    (publicKey privateKey : List Nat) (addr : Nat) (st' : WState) :
    (ctx.caller ≠ 0 → st.selfAccounts ctx.caller index ≠ 0 →
      createWallet ctx st index publicKey privateKey addr = some (st, false)) ∧
    (createWallet ctx st index publicKey privateKey addr = some (st', true) →
      st'.selfAccounts ctx.caller index = bytes32ToUint publicKey ∧
      st'.publicKeys (bytes32ToUint publicKey) = publicKey ∧
      st'.privateKeys (bytes32ToUint publicKey) = privateKey ∧
      st'.addresses (bytes32ToUint publicKey) = addr ∧
      st'.accounts addr = ⟨ctx.caller, index, bytes32ToUint publicKey, 0⟩ ∧
      st'.attendedWallets ctx.caller =
        st.attendedWallets ctx.caller ++ [⟨index, ctx.blockNumber⟩] ∧
      st.selfAccounts ctx.caller index = 0 ∧
      (∀ a i, ¬(a = ctx.caller ∧ i = index) → st'.selfAccounts a i = st.selfAccounts a i)) := by
  constructor
  · intro hc hex
    unfold createWallet
    rw [if_neg hc, if_pos hex]
  · intro h
    unfold createWallet at h
    split at h
    · exact absurd h (by simp)
    split at h
    · rename_i hex
      exact absurd h (by simp)
    split at h
    · exact absurd h (by simp)
    rename_i hc hex hlen
    push_neg at hex
    cases h
    refine ⟨?_, ?_, ?_, ?_, ?_, ?_, hex, ?_⟩
    · simp
    · simp [mapUpd_same]
    · simp [mapUpd_same]
    · simp [mapUpd_same]
    · simp [mapUpd_same]
    · simp [mapUpd_same]
    · intro a i hne
      simp [if_neg hne]

theorem createWallet_idempotent_witness :
    ((1 : Nat) ≠ 0 ∧ c8CreatedState.selfAccounts 1 3 ≠ 0 ∧
      createWallet ⟨1, 2, 20⟩ c8CreatedState 3 [5] [6] 8 = some (c8CreatedState, false)) ∧
    (createWallet ⟨1, 1, 10⟩ (wInitial 0 0) 3 (List.replicate 31 0 ++ [1]) [2] 9 =
        some (c8CreatedState, true) ∧
      c8CreatedState.selfAccounts 1 3 = 1 ∧
      c8CreatedState.publicKeys 1 = List.replicate 31 0 ++ [1] ∧
      c8CreatedState.accounts 9 = ⟨1, 3, 1, 0⟩ ∧
      c8CreatedState.attendedWallets 1 = [⟨3, 1⟩]) := by
  have c8fresh := (createWallet_idempotent ⟨1, 1, 10⟩ (wInitial 0 0) 3
    (List.replicate 31 0 ++ [1]) [2] 9 c8CreatedState).2 (by rfl)
  refine ⟨⟨by decide, by decide, ?_⟩, ⟨by rfl, ?_, ?_, ?_, ?_⟩⟩
  · exact (createWallet_idempotent ⟨1, 2, 20⟩ c8CreatedState 3 [5] [6] 8 c8CreatedState).1
      (by decide) (by decide)
  · exact c8fresh.1
  · exact c8fresh.2.1
  · exact c8fresh.2.2.2.2.1
  · have h := c8fresh.2.2.2.2.2.1
    simpa using h

/-- C10: `destroyExportedKey` overwrites the wallet's private-key slot
with the fixed, nonempty, 96-byte sentinel and removes nothing else: the
ownership link, key maps and export state survive.  Consequently a later
`exportKey` by the owner (once past the relevant blocks) still succeeds
and returns a fresh-nonce encryption of the sentinel bytes. -/
theorem destroyExportedKey_keeps_wallet (env : WEnv) (ctx : WCtx) (st : WState)
    (accountIndex : Nat) (st' : WState)
    (h : destroyExportedKey ctx st accountIndex = some st') :
    st'.privateKeys (st.selfAccounts ctx.caller accountIndex) = destroyedKeyBytes ∧
    destroyedKeyBytes.length = 96 ∧ destroyedKeyBytes ≠ [] ∧
    st'.selfAccounts = st.selfAccounts ∧
    st'.publicKeys = st.publicKeys ∧ st'.addresses = st.addresses ∧
    st'.accounts = st.accounts ∧ st'.keyExportRequested = st.keyExportRequested ∧
    st'.keyExportCounterparty = st.keyExportCounterparty ∧
    (∀ ctx2 : WCtx, ∀ nonce : Nat, ctx2.caller = ctx.caller →
      (st.accounts (st.addresses (st.selfAccounts ctx.caller accountIndex))).blockNumber
        < ctx2.blockNumber →
      (st.keyExportRequested (st.selfAccounts ctx.caller accountIndex)).pendingBlockNumber
        < ctx2.blockNumber →
      exportKey env ctx2 st' accountIndex nonce =
        some (env.encryptB
          (env.deriveSymmetricKey
            (st.keyExportCounterparty (st.selfAccounts ctx.caller accountIndex))
            st.keyExportPrivateKey)
          nonce destroyedKeyBytes, nonce)) := by
  unfold destroyExportedKey at h
  split at h
  · exact absurd h (by simp)
  rename_i privateIndex hgp
  split at h
  swap
  · exact absurd h (by simp)
  rename_i hfin
  cases h
  have hspec := getPrivateIndex_spec hgp
  have hpieq : st.selfAccounts ctx.caller accountIndex = privateIndex := hspec.2.1
  have hflag : (st.keyExportRequested privateIndex)._bool = true := by
    unfold getFinalizedBool at hfin
    split at hfin
    · exact Option.some.inj hfin
    · exact absurd hfin (by simp)
  refine ⟨?_, by decide, by decide, rfl, rfl, rfl, rfl, rfl, rfl, ?_⟩
  · rw [hpieq]
    simp [mapUpd_same]
  · intro ctx2 nonce hc2 hb2 hfin2
    rw [hpieq] at hb2 hfin2
    unfold exportKey
    have hgp2 : getPrivateIndex ctx2 { st with
        privateKeys := mapUpd st.privateKeys privateIndex destroyedKeyBytes }
        accountIndex = some privateIndex := by
      unfold getPrivateIndex
      rw [if_neg (by rw [hc2]; exact hspec.1)]
      simp only [hc2, hpieq]
      rw [if_neg hspec.2.2.1, if_pos hb2]
    have hfb : getFinalizedBool (st.keyExportRequested privateIndex) ctx2.blockNumber =
        some true := by
      unfold getFinalizedBool
      rw [if_pos hfin2, hflag]
    simp only [hgp2]
    simp only [hfb]
    simp [mapUpd_same, hpieq]

theorem destroyExportedKey_keeps_wallet_witness :
    destroyExportedKey ⟨1, 3, 30⟩ (wRunFrom wEnv0 (wInitial 0 0) wTrExport) 3 =
      some c10DestroyedState ∧
    c10DestroyedState.privateKeys 1 = destroyedKeyBytes ∧
    destroyedKeyBytes.length = 96 ∧
    c10DestroyedState.selfAccounts 1 3 = 1 ∧
    (c10DestroyedState.keyExportRequested 1)._bool = true ∧
    ((1 : Nat) = 1 ∧
      ((wRunFrom wEnv0 (wInitial 0 0) wTrExport).accounts 9).blockNumber < 4 ∧ (2 : Nat) < 4 ∧
      exportKey wEnv0 ⟨1, 4, 40⟩ c10DestroyedState 3 11 = some (destroyedKeyBytes, 11)) := by
  have hmain := destroyExportedKey_keeps_wallet wEnv0 ⟨1, 3, 30⟩
    (wRunFrom wEnv0 (wInitial 0 0) wTrExport) 3 c10DestroyedState (by rfl)
  refine ⟨by rfl, ?_, by decide, by decide, by decide, rfl, by decide, by decide, ?_⟩
  · exact hmain.1
  · exact hmain.2.2.2.2.2.2.2.2.2 ⟨1, 4, 40⟩ 11 rfl (by decide) (by decide)

theorem mapUpd2_same {β : Type} (f : Nat → Nat → β) (a b : Nat) (v : β) :
    mapUpd2 f a b v a b = v := by
  simp [mapUpd2]

theorem mapUpd3_same {β : Type} (f : Nat → Nat → Nat → β) (a b c : Nat) (v : β) :
    mapUpd3 f a b c v a b c = v := by
  simp [mapUpd3]

theorem mapUpd3_other {β : Type} (f : Nat → Nat → Nat → β) (a b c : Nat) (v : β)
    (x y z : Nat) (h : ¬(x = a ∧ y = b ∧ z = c)) : mapUpd3 f a b c v x y z = f x y z := by
  simp [mapUpd3, h]

theorem commitToDeposit_bal {ctx : PCtx} {st : PState} {h : Nat} {st' : PState}
    (hstep : commitToDeposit ctx st h = some st') :
    st'.subPolicyEthBalance = st.subPolicyEthBalance := by
  unfold commitToDeposit at hstep
  split at hstep
  · cases hstep; rfl
  · exact absurd hstep (by simp)

theorem finalizeLocalFunds_bal {ctx : PCtx} {st : PState} {account chainId : Nat}
    {st' : PState} (hstep : finalizeLocalFunds ctx st account chainId = some st') :
    st'.subPolicyEthBalance = st.subPolicyEthBalance := by
  unfold finalizeLocalFunds at hstep
  split at hstep
  · exact absurd hstep (by simp)
  split at hstep
  swap
  · exact absurd hstep (by simp)
  split at hstep
  · cases hstep; rfl
  · exact absurd hstep (by simp)

theorem depositLocalFunds_bal {ctx : PCtx} {st : PState} {account chainId v : Nat}
    {st' : PState} (hstep : depositLocalFunds ctx st account chainId v = some st') :
    st'.subPolicyEthBalance = st.subPolicyEthBalance := by
  unfold depositLocalFunds at hstep
  split at hstep
  · exact absurd hstep (by simp)
  split at hstep
  · split at hstep
    · split at hstep
      · exact absurd hstep (by simp)
      · rename_i st1 hfin
        cases hstep
        have hb : st1.subPolicyEthBalance = st.subPolicyEthBalance :=
          finalizeLocalFunds_bal hfin
        exact hb
    · split at hstep
      · cases hstep; rfl
      · exact absurd hstep (by simp)
  · cases hstep; rfl

theorem notifyEncumbranceEnrollment_bal {ctx : PCtx} {st : PState}
    {owner account : Nat} {assets : List Nat} {expiration managerAddr : Nat}
    {st' : PState}
    (hstep : notifyEncumbranceEnrollment ctx st owner account assets expiration
      managerAddr = some st') :
    st'.subPolicyEthBalance = st.subPolicyEthBalance := by
  unfold notifyEncumbranceEnrollment at hstep
  split at hstep
  · exact absurd hstep (by simp)
  split at hstep
  · exact absurd hstep (by simp)
  split at hstep
  · cases hstep; rfl
  · exact absurd hstep (by simp)

theorem pEncumberDestinations_bal {env : PEnv} {ctx : PCtx}
    {account subPolicy expiry : Nat} :
    ∀ {dests : List (Nat × Nat)} {st st' : PState},
    pEncumberDestinations env ctx account subPolicy expiry st dests = some st' →
    st'.subPolicyEthBalance = st.subPolicyEthBalance := by
  intro dests
  induction dests with
  | nil =>
      intro st st' hstep
      cases hstep; rfl
  | cons d rest ih =>
      intro st st' hstep
      unfold pEncumberDestinations at hstep
      split at hstep
      · exact Eq.trans (ih hstep) rfl
      · exact absurd hstep (by simp)

theorem setUnlimitedSigners_bal {account subPolicy : Nat} :
    ∀ {dests : List (Nat × Nat)} {st : PState},
    (setUnlimitedSigners account subPolicy st dests).subPolicyEthBalance =
      st.subPolicyEthBalance := by
  intro dests
  induction dests with
  | nil => intro st; rfl
  | cons d rest ih => intro st; exact ih

theorem pEnterEncumbranceContract_bal {env : PEnv} {ctx : PCtx} {st : PState}
    {account : Nat} {dests : List (Nat × Nat)} {subPolicy expiry : Nat}
    {sig dep ok : Bool} {st' : PState}
    (hstep : pEnterEncumbranceContract env ctx st account dests subPolicy expiry
      sig dep ok = some st') :
    st'.subPolicyEthBalance = st.subPolicyEthBalance := by
  unfold pEnterEncumbranceContract at hstep
  split at hstep
  swap
  · exact absurd hstep (by simp)
  split at hstep
  · exact absurd hstep (by simp)
  split at hstep
  · exact absurd hstep (by simp)
  split at hstep
  swap
  · exact absurd hstep (by simp)
  split at hstep
  · exact absurd hstep (by simp)
  rename_i st1 hloop
  split at hstep
  swap
  · exact absurd hstep (by simp)
  split at hstep
  · cases hstep
    have hb : st1.subPolicyEthBalance = st.subPolicyEthBalance :=
      pEncumberDestinations_bal hloop
    exact hb
  · cases hstep
    have hb : (setUnlimitedSigners account subPolicy st1 dests).subPolicyEthBalance =
        st.subPolicyEthBalance :=
      Eq.trans setUnlimitedSigners_bal (pEncumberDestinations_bal hloop)
    exact hb

theorem releaseCommitmentRequirement_bal {env : PEnv} {ctx : PCtx} {st : PState}
    {account c t : Nat} {st' : PState}
    (hstep : releaseCommitmentRequirement env ctx st account c t = some st') :
    st'.subPolicyEthBalance = st.subPolicyEthBalance := by
  unfold releaseCommitmentRequirement at hstep
  split at hstep
  · exact absurd hstep (by simp)
  split at hstep
  · cases hstep; rfl
  · exact absurd hstep (by simp)

theorem commitToTransaction_bal {env : PEnv} {ctx : PCtx} {st : PState}
    {account : Nat} {tx : Type2TxMessage} {st' : PState}
    (hstep : commitToTransaction env ctx st account tx = some st') :
    st'.subPolicyEthBalance = st.subPolicyEthBalance := by
  unfold commitToTransaction at hstep
  split at hstep
  swap
  · exact absurd hstep (by simp)
  split at hstep
  · cases hstep; rfl
  · exact absurd hstep (by simp)

theorem depositFunds_bal {env : PEnv} {ctx : PCtx} {st : PState}
    {stx : Type2TxMessageSigned} {proof : TransactionProof} {st' : PState}
    (hstep : depositFunds env ctx st stx proof = some st') :
    st'.subPolicyEthBalance = mapUpd3 st.subPolicyEthBalance
      (depositCommitter env st stx) stx.transaction.destination stx.transaction.chainId
      (st.subPolicyEthBalance (depositCommitter env st stx) stx.transaction.destination
        stx.transaction.chainId + stx.transaction.amount) := by
  unfold depositFunds at hstep
  split at hstep
  swap
  · exact absurd hstep (by simp)
  rename_i hv
  split at hstep
  · exact absurd hstep (by simp)
  rename_i includedTx hval
  split at hstep
  · exact absurd hstep (by simp)
  rename_i signedTxHash hhash
  split at hstep
  · exact absurd hstep (by simp)
  split at hstep
  · exact absurd hstep (by simp)
  split at hstep
  · exact absurd hstep (by simp)
  split at hstep
  · exact absurd hstep (by simp)
  split at hstep
  · exact absurd hstep (by simp)
  split at hstep
  · exact absurd hstep (by simp)
  rename_i hrec
  split at hstep
  swap
  · exact absurd hstep (by simp)
  cases hstep
  have hcommitter : depositCommitter env st stx = (st.depositTransactions signedTxHash).account := by
    unfold depositCommitter
    rw [hhash]
  rw [hcommitter]

theorem proveTransactionInclusion_bal {env : PEnv} {ctx : PCtx} {st : PState}
    {stx : Type2TxMessageSigned} {proof : TransactionProof} {pbn : Nat} {st' : PState}
    (hstep : proveTransactionInclusion env ctx st stx proof pbn = some st') :
    st'.subPolicyEthBalance = mapUpd3 st.subPolicyEthBalance
      (proveDebitTarget env st (proveSignerOf env stx) stx.transaction.chainId
        stx.transaction.destination (unsignedTxHashOf env stx.transaction))
      (proveSignerOf env stx) stx.transaction.chainId
      (if st.subPolicyEthBalance
          (proveDebitTarget env st (proveSignerOf env stx) stx.transaction.chainId
            stx.transaction.destination (unsignedTxHashOf env stx.transaction))
          (proveSignerOf env stx) stx.transaction.chainId >
          getMaxTransactionCost stx.transaction then
        st.subPolicyEthBalance
          (proveDebitTarget env st (proveSignerOf env stx) stx.transaction.chainId
            stx.transaction.destination (unsignedTxHashOf env stx.transaction))
          (proveSignerOf env stx) stx.transaction.chainId -
          getMaxTransactionCost stx.transaction
      else 0) := by
  unfold proveTransactionInclusion at hstep
  split at hstep
  · exact absurd hstep (by simp)
  rename_i signerAccount hrec
  split at hstep
  · exact absurd hstep (by simp)
  split at hstep
  swap
  · exact absurd hstep (by simp)
  split at hstep
  · exact absurd hstep (by simp)
  rename_i includedTx hval
  split at hstep
  · exact absurd hstep (by simp)
  rename_i signedTxHash hhash
  split at hstep
  · exact absurd hstep (by simp)
  split at hstep
  · exact absurd hstep (by simp)
  split at hstep
  · exact absurd hstep (by simp)
  split at hstep
  · exact absurd hstep (by simp)
  split at hstep
  · exact absurd hstep (by simp)
  cases hstep
  have hsig : proveSignerOf env stx = signerAccount := by
    unfold proveSignerOf
    rw [hrec]
    rfl
  rw [hsig]

/-- The ledger-step identity for a `commitToDeposit` operation. -/
theorem ethBalance_step_commitToDeposit (env : PEnv) (ctx : PCtx) (st : PState)
    (h : Nat) (sp account chainId : Nat) :
    (pstepTotal env ctx (.commitToDeposit h) st).subPolicyEthBalance sp account chainId +
      ethActualDebitDelta env ctx (.commitToDeposit h) st sp account chainId =
    st.subPolicyEthBalance sp account chainId +
      ethCreditDelta env ctx (.commitToDeposit h) st sp account chainId := by
  simp only [ethActualDebitDelta, ethCreditDelta, pstepTotal, pstep]
  cases hstep : commitToDeposit ctx st h with
  | none => simp [hstep]
  | some st2 => simp [hstep, commitToDeposit_bal hstep]

/-- The ledger-step identity for a `finalizeLocalFunds` operation. -/
theorem ethBalance_step_finalizeLocalFunds (env : PEnv) (ctx : PCtx) (st : PState)
    (a c : Nat) (sp account chainId : Nat) :
    (pstepTotal env ctx (.finalizeLocalFunds a c) st).subPolicyEthBalance sp account chainId +
      ethActualDebitDelta env ctx (.finalizeLocalFunds a c) st sp account chainId =
    st.subPolicyEthBalance sp account chainId +
      ethCreditDelta env ctx (.finalizeLocalFunds a c) st sp account chainId := by
  simp only [ethActualDebitDelta, ethCreditDelta, pstepTotal, pstep]
  cases hstep : finalizeLocalFunds ctx st a c with
  | none => simp [hstep]
  | some st2 => simp [hstep, finalizeLocalFunds_bal hstep]

/-- The ledger-step identity for a `depositLocalFunds` operation. -/
theorem ethBalance_step_depositLocalFunds (env : PEnv) (ctx : PCtx) (st : PState)
    (a c v : Nat) (sp account chainId : Nat) :
    (pstepTotal env ctx (.depositLocalFunds a c v) st).subPolicyEthBalance sp account chainId +
      ethActualDebitDelta env ctx (.depositLocalFunds a c v) st sp account chainId =
    st.subPolicyEthBalance sp account chainId +
      ethCreditDelta env ctx (.depositLocalFunds a c v) st sp account chainId := by
  simp only [ethActualDebitDelta, ethCreditDelta, pstepTotal, pstep]
  cases hstep : depositLocalFunds ctx st a c v with
  | none => simp [hstep]
  | some st2 => simp [hstep, depositLocalFunds_bal hstep]

/-- The ledger-step identity for a `notifyEncumbranceEnrollment` operation. -/
theorem ethBalance_step_notifyEncumbranceEnrollment (env : PEnv) (ctx : PCtx) (st : PState)
    (o a : Nat) (as : List Nat) (e m : Nat) (sp account chainId : Nat) :
    (pstepTotal env ctx (.notifyEncumbranceEnrollment o a as e m) st).subPolicyEthBalance sp account chainId +
      ethActualDebitDelta env ctx (.notifyEncumbranceEnrollment o a as e m) st sp account chainId =
    st.subPolicyEthBalance sp account chainId +
      ethCreditDelta env ctx (.notifyEncumbranceEnrollment o a as e m) st sp account chainId := by
  simp only [ethActualDebitDelta, ethCreditDelta, pstepTotal, pstep]
  cases hstep : notifyEncumbranceEnrollment ctx st o a as e m with
  | none => simp [hstep]
  | some st2 => simp [hstep, notifyEncumbranceEnrollment_bal hstep]

/-- The ledger-step identity for a `enterEncumbranceContract` operation. -/
theorem ethBalance_step_enterEncumbranceContract (env : PEnv) (ctx : PCtx) (st : PState)
    (a : Nat) (ds : List (Nat × Nat)) (spol e : Nat) (s1 s2 s3 : Bool) (sp account chainId : Nat) :
    (pstepTotal env ctx (.enterEncumbranceContract a ds spol e s1 s2 s3) st).subPolicyEthBalance sp account chainId +
      ethActualDebitDelta env ctx (.enterEncumbranceContract a ds spol e s1 s2 s3) st sp account chainId =
    st.subPolicyEthBalance sp account chainId +
      ethCreditDelta env ctx (.enterEncumbranceContract a ds spol e s1 s2 s3) st sp account chainId := by
  simp only [ethActualDebitDelta, ethCreditDelta, pstepTotal, pstep]
  cases hstep : pEnterEncumbranceContract env ctx st a ds spol e s1 s2 s3 with
  | none => simp [hstep]
  | some st2 => simp [hstep, pEnterEncumbranceContract_bal hstep]

/-- The ledger-step identity for a `releaseCommitmentRequirement` operation. -/
theorem ethBalance_step_releaseCommitmentRequirement (env : PEnv) (ctx : PCtx) (st : PState)
    (a c t : Nat) (sp account chainId : Nat) :
    (pstepTotal env ctx (.releaseCommitmentRequirement a c t) st).subPolicyEthBalance sp account chainId +
      ethActualDebitDelta env ctx (.releaseCommitmentRequirement a c t) st sp account chainId =
    st.subPolicyEthBalance sp account chainId +
      ethCreditDelta env ctx (.releaseCommitmentRequirement a c t) st sp account chainId := by
  simp only [ethActualDebitDelta, ethCreditDelta, pstepTotal, pstep]
  cases hstep : releaseCommitmentRequirement env ctx st a c t with
  | none => simp [hstep]
  | some st2 => simp [hstep, releaseCommitmentRequirement_bal hstep]

/-- The ledger-step identity for a `commitToTransaction` operation. -/
theorem ethBalance_step_commitToTransaction (env : PEnv) (ctx : PCtx) (st : PState)
    (a : Nat) (tx : Type2TxMessage) (sp account chainId : Nat) :
    (pstepTotal env ctx (.commitToTransaction a tx) st).subPolicyEthBalance sp account chainId +
      ethActualDebitDelta env ctx (.commitToTransaction a tx) st sp account chainId =
    st.subPolicyEthBalance sp account chainId +
      ethCreditDelta env ctx (.commitToTransaction a tx) st sp account chainId := by
  simp only [ethActualDebitDelta, ethCreditDelta, pstepTotal, pstep]
  cases hstep : commitToTransaction env ctx st a tx with
  | none => simp [hstep]
  | some st2 => simp [hstep, commitToTransaction_bal hstep]

/-- Discarding an option value and defaulting both to the same state is
the identity. -/
theorem optionMapConstGetD (o : Option (List Nat)) (st : PState) :
    (o.map (fun _ => st)).getD st = st := by
  cases o <;> rfl

/-- The ledger-step identity for a `signTransaction` operation: the view
call never changes state and carries no credit or debit. -/
theorem ethBalance_step_signTransaction (env : PEnv) (ctx : PCtx) (st : PState)
    (a : Nat) (tx : Type2TxMessage) (sp account chainId : Nat) :
    (pstepTotal env ctx (.signTransaction a tx) st).subPolicyEthBalance sp account chainId +
      ethActualDebitDelta env ctx (.signTransaction a tx) st sp account chainId =
    st.subPolicyEthBalance sp account chainId +
      ethCreditDelta env ctx (.signTransaction a tx) st sp account chainId := by
  have h : pstepTotal env ctx (.signTransaction a tx) st = st :=
    optionMapConstGetD (signTransaction env ctx st a tx) st
  rw [h]
  rfl

/-- The ledger-step identity for a `depositFunds` operation. -/
theorem ethBalance_step_depositFunds (env : PEnv) (ctx : PCtx) (st : PState)
    (stx : Type2TxMessageSigned) (proof : TransactionProof) (sp account chainId : Nat) :
    (pstepTotal env ctx (.depositFunds stx proof) st).subPolicyEthBalance sp account chainId +
      ethActualDebitDelta env ctx (.depositFunds stx proof) st sp account chainId =
    st.subPolicyEthBalance sp account chainId +
      ethCreditDelta env ctx (.depositFunds stx proof) st sp account chainId := by
  simp only [ethActualDebitDelta]
  unfold pstepTotal
  cases hstep : pstep env ctx (.depositFunds stx proof) st with
  | none =>
      have hzero : ethCreditDelta env ctx (.depositFunds stx proof) st sp account chainId
          = 0 := by
        simp only [ethCreditDelta]
        rw [if_neg]
        intro hcon
        rw [hstep] at hcon
        simp at hcon
      rw [hzero]
      simp
  | some st2 =>
      have hdf : depositFunds env ctx st stx proof = some st2 := hstep
      have hbal := depositFunds_bal hdf
      simp only [Option.getD_some]
      by_cases hkey : depositCommitter env st stx = sp ∧
          stx.transaction.destination = account ∧ stx.transaction.chainId = chainId
      · obtain ⟨h1, h2, h3⟩ := hkey
        subst h1
        subst h2
        subst h3
        rw [hbal, mapUpd3_same]
        simp [ethCreditDelta, hstep]
      · rw [hbal, mapUpd3_other _ _ _ _ _ _ _ _
          (by intro hcon; exact hkey ⟨hcon.1.symm, hcon.2.1.symm, hcon.2.2.symm⟩)]
        simp only [ethCreditDelta]
        rw [if_neg (by intro hcon; exact hkey ⟨hcon.2.1, hcon.2.2.1, hcon.2.2.2⟩)]

/-- The ledger-step identity for a `proveTransactionInclusion`
operation. -/
theorem ethBalance_step_proveTransactionInclusion (env : PEnv) (ctx : PCtx) (st : PState)
    (stx : Type2TxMessageSigned) (proof : TransactionProof) (pbn : Nat)
    (sp account chainId : Nat) :
    (pstepTotal env ctx (.proveTransactionInclusion stx proof pbn) st).subPolicyEthBalance
        sp account chainId +
      ethActualDebitDelta env ctx (.proveTransactionInclusion stx proof pbn) st sp account chainId =
    st.subPolicyEthBalance sp account chainId +
      ethCreditDelta env ctx (.proveTransactionInclusion stx proof pbn) st sp account chainId := by
  simp only [ethCreditDelta]
  unfold pstepTotal
  cases hstep : pstep env ctx (.proveTransactionInclusion stx proof pbn) st with
  | none =>
      have hzero : ethActualDebitDelta env ctx (.proveTransactionInclusion stx proof pbn)
          st sp account chainId = 0 := by
        simp only [ethActualDebitDelta]
        rw [if_neg]
        intro hcon
        rw [hstep] at hcon
        simp at hcon
      rw [hzero]
      simp
  | some st2 =>
      have hps : proveTransactionInclusion env ctx st stx proof pbn = some st2 := hstep
      have hbal := proveTransactionInclusion_bal hps
      simp only [Option.getD_some]
      by_cases hkey : proveSignerOf env stx = account ∧
          proveDebitTarget env st (proveSignerOf env stx) stx.transaction.chainId
            stx.transaction.destination (unsignedTxHashOf env stx.transaction) = sp ∧
          stx.transaction.chainId = chainId
      · obtain ⟨h1, h2, h3⟩ := hkey
        subst h1
        subst h2
        subst h3
        rw [hbal, mapUpd3_same]
        have hdelta : ethActualDebitDelta env ctx
            (.proveTransactionInclusion stx proof pbn) st
            (proveDebitTarget env st (proveSignerOf env stx) stx.transaction.chainId
              stx.transaction.destination (unsignedTxHashOf env stx.transaction))
            (proveSignerOf env stx) stx.transaction.chainId =
            min (getMaxTransactionCost stx.transaction)
              (st.subPolicyEthBalance
                (proveDebitTarget env st (proveSignerOf env stx) stx.transaction.chainId
                  stx.transaction.destination (unsignedTxHashOf env stx.transaction))
                (proveSignerOf env stx) stx.transaction.chainId) := by
          simp [ethActualDebitDelta, hstep]
        rw [hdelta]
        rcases le_or_lt (st.subPolicyEthBalance
            (proveDebitTarget env st (proveSignerOf env stx) stx.transaction.chainId
              stx.transaction.destination (unsignedTxHashOf env stx.transaction))
            (proveSignerOf env stx) stx.transaction.chainId)
            (getMaxTransactionCost stx.transaction) with hle | hlt
        · rw [if_neg (by omega), Nat.min_eq_right hle]
          omega
        · rw [if_pos hlt, Nat.min_eq_left (le_of_lt hlt)]
          omega
      · rw [hbal, mapUpd3_other _ _ _ _ _ _ _ _
          (by intro hcon; exact hkey ⟨hcon.2.1.symm, hcon.1.symm, hcon.2.2.symm⟩)]
        simp only [ethActualDebitDelta]
        rw [if_neg (by intro hcon; exact hkey ⟨hcon.2.1, hcon.2.2.1, hcon.2.2.2⟩)]

/-- One dispatched operation changes each `(sp, account, chainId)` cell
of the ETH ledger by exactly its credit minus its actual (saturating)
debit. -/
theorem ethBalance_step (env : PEnv) (ctx : PCtx) (op : POp) (st : PState)
    (sp account chainId : Nat) :
    (pstepTotal env ctx op st).subPolicyEthBalance sp account chainId +
      ethActualDebitDelta env ctx op st sp account chainId =
    st.subPolicyEthBalance sp account chainId +
      ethCreditDelta env ctx op st sp account chainId := by
  cases op with
  | commitToDeposit h =>
      exact ethBalance_step_commitToDeposit env ctx st h sp account chainId
  | finalizeLocalFunds a c =>
      exact ethBalance_step_finalizeLocalFunds env ctx st a c sp account chainId
  | depositLocalFunds a c v =>
      exact ethBalance_step_depositLocalFunds env ctx st a c v sp account chainId
  | notifyEncumbranceEnrollment o a as e m =>
      exact ethBalance_step_notifyEncumbranceEnrollment env ctx st o a as e m sp account chainId
  | enterEncumbranceContract a ds spol e s1 s2 s3 =>
      exact ethBalance_step_enterEncumbranceContract env ctx st a ds spol e s1 s2 s3
        sp account chainId
  | releaseCommitmentRequirement a c t =>
      exact ethBalance_step_releaseCommitmentRequirement env ctx st a c t sp account chainId
  | commitToTransaction a tx =>
      exact ethBalance_step_commitToTransaction env ctx st a tx sp account chainId
  | signTransaction a tx =>
      exact ethBalance_step_signTransaction env ctx st a tx sp account chainId
  | depositFunds stx proof =>
      exact ethBalance_step_depositFunds env ctx st stx proof sp account chainId
  | proveTransactionInclusion stx proof pbn =>
      exact ethBalance_step_proveTransactionInclusion env ctx st stx proof pbn sp account chainId

/-- Along any trace, each `(sp, account, chainId)` cell of the ETH
ledger equals its initial value plus total credits minus total actual
debits. -/
theorem ethBalance_run (env : PEnv) : ∀ (tr : List (PCtx × POp)) (st : PState)
    (sp account chainId : Nat),
    (pRunFrom env st tr).subPolicyEthBalance sp account chainId +
      ethActualDebits env st tr sp account chainId =
    st.subPolicyEthBalance sp account chainId +
      ethCredits env st tr sp account chainId := by
  intro tr
  induction tr with
  | nil =>
      intro st sp account chainId
      simp [pRunFrom, ethActualDebits, ethCredits]
  | cons step rest ih =>
      intro st sp account chainId
      obtain ⟨ctx, op⟩ := step
      simp only [pRunFrom, ethActualDebits, ethCredits]
      have hstep := ethBalance_step env ctx op st sp account chainId
      have hrest := ih (pstepTotal env ctx op st) sp account chainId
      omega

/-- C3 (amended): for every `(account, chainId)` and legal trace
prefix, the sum over sub-policies of ETH credited by successful
`depositFunds` calls minus the amounts actually debited by successful
`proveTransactionInclusion` calls — each debit being
`min(maxCost, balance)`, saturating — equals the sum of
`subPolicyEthBalance` entries over those sub-policies. -/
theorem ethBalance_conservation (env : PEnv) (w : Nat) (tr : List (PCtx × POp))
    (hleg : pTraceOK 0 0 tr = true) (sps : List Nat) (account chainId : Nat) :
    ((sps.map (fun sp => ethCredits env (pInitial w) tr sp account chainId)).sum : Int) -
      ((sps.map (fun sp => ethActualDebits env (pInitial w) tr sp account chainId)).sum : Int) =
    ((sps.map (fun sp =>
        (pRunFrom env (pInitial w) tr).subPolicyEthBalance sp account chainId)).sum : Int) := by
  induction sps with
  | nil => simp
  | cons sp rest ih =>
      simp only [List.map_cons, List.sum_cons]
      have hpt := ethBalance_run env tr (pInitial w) sp account chainId
      have h0 : (pInitial w).subPolicyEthBalance sp account chainId = 0 := rfl
      push_cast
      push_cast at ih
      omega

/-- In the sample trace only sub-policy 4 is ever credited, charged a
`maxCost` debit, or left holding ETH balance for `(40, 1)`: the list
`[4]` covers every sub-policy the conservation sums range over. -/
theorem pTrCex_only_subPolicy_4 (sp : Nat) (hne : sp ≠ 4) :
    ethCredits pEnv0 (pInitial 50) pTrCex sp 40 1 = 0 ∧
    ethMaxCostDebits pEnv0 (pInitial 50) pTrCex sp 40 1 = 0 ∧
    (pRunFrom pEnv0 (pInitial 50) pTrCex).subPolicyEthBalance sp 40 1 = 0 := by
  have hcred : ethCredits pEnv0 (pInitial 50) pTrCex sp 40 1 = 0 := by
    simp only [pTrCex, ethCredits, ethCreditDelta, Nat.zero_add, Nat.add_zero]
    rw [if_neg]
    intro hcon
    exact hne (hcon.2.1.symm.trans (by rfl))
  refine ⟨hcred, ?_, ?_⟩
  · simp only [pTrCex, ethMaxCostDebits, ethMaxCostDebitDelta, Nat.zero_add, Nat.add_zero]
    rw [if_neg]
    intro hcon
    exact hne (hcon.2.2.1.symm.trans (by rfl))
  · have hrun := ethBalance_run pEnv0 pTrCex (pInitial 50) sp 40 1
    have h0 : (pInitial 50).subPolicyEthBalance sp 40 1 = 0 := rfl
    omega

/-- C3 (counterexample to the claim as stated): in the sample trace,
sub-policy 4 — the only sub-policy with any credit, debit or balance —
is credited 10 and charged a `maxCost` debit of 25, yet its final
balance is 0 because the actual debit saturates at the balance; so the
sum of credits minus `maxCost` debits (−15) differs from the sum of
balances (0). -/
theorem ethConservation_maxCost_refuted :
    pTraceOK 0 0 pTrCex = true ∧
    ethCredits pEnv0 (pInitial 50) pTrCex 4 40 1 = 10 ∧
    ethMaxCostDebits pEnv0 (pInitial 50) pTrCex 4 40 1 = 25 ∧
    (pRunFrom pEnv0 (pInitial 50) pTrCex).subPolicyEthBalance 4 40 1 = 0 ∧
    ¬ ((([4] : List Nat).map
          (fun sp => ethCredits pEnv0 (pInitial 50) pTrCex sp 40 1)).sum : Int) -
        ((([4] : List Nat).map
          (fun sp => ethMaxCostDebits pEnv0 (pInitial 50) pTrCex sp 40 1)).sum : Int) =
      ((([4] : List Nat).map (fun sp =>
          (pRunFrom pEnv0 (pInitial 50) pTrCex).subPolicyEthBalance sp 40 1)).sum : Int) := by
  refine ⟨by decide, by decide, by decide, by decide, ?_⟩
  decide

theorem ethBalance_conservation_witness :
    pTraceOK 0 0 pTrCex = true ∧
    ((([4] : List Nat).map
        (fun sp => ethCredits pEnv0 (pInitial 50) pTrCex sp 40 1)).sum : Int) -
      ((([4] : List Nat).map
        (fun sp => ethActualDebits pEnv0 (pInitial 50) pTrCex sp 40 1)).sum : Int) =
    ((([4] : List Nat).map (fun sp =>
        (pRunFrom pEnv0 (pInitial 50) pTrCex).subPolicyEthBalance sp 40 1)).sum : Int) :=
  ⟨by decide, ethBalance_conservation pEnv0 50 pTrCex (by decide) [4] 40 1⟩

/-- The debit-target selection rule, stated the way the specification
describes it: the current leaseholder when it equals the recorded
`lastUnlimitedSigner`, else the committed sub-policy when a matching
commitment exists, else `lastUnlimitedSigner`. -/
theorem proveDebitTarget_selection (env : PEnv) (st : PState)
    (signer chain dest uh : Nat) :
    proveDebitTarget env st signer chain dest uh =
      if st.encumbranceSubContract signer (getEncodedAsset env chain dest) =
          st.lastUnlimitedSigner signer chain dest then
        st.encumbranceSubContract signer (getEncodedAsset env chain dest)
      else if (st.committedTransactions signer uh).subPolicy ≠ 0 then
        (st.committedTransactions signer uh).subPolicy
      else st.lastUnlimitedSigner signer chain dest := by
  unfold proveDebitTarget
  by_cases h1 : st.lastUnlimitedSigner signer chain dest =
      st.encumbranceSubContract signer (getEncodedAsset env chain dest)
  · simp [h1]
  · by_cases h2 : (st.committedTransactions signer uh).subPolicy = 0
    · simp [h1, h2, Ne.symm h1]
    · simp [h1, h2, Ne.symm h1]

/-- C4: a successful `proveTransactionInclusion` requires the proved
transaction's nonce to equal the signer's `transactionCounts` entry and
increments that entry by exactly one; the debited sub-policy follows
the leaseholder / commitment / `lastUnlimitedSigner` precedence; the
debit is `min(maxCost, balance)`, saturating, never underflowing; and
`lastUnlimitedSigner` is then set to the current leaseholder. -/
theorem proveTransactionInclusion_spec (env : PEnv) (ctx : PCtx) (st : PState)
    (stx : Type2TxMessageSigned) (proof : TransactionProof) (pbn : Nat) (st' : PState)
    (h : proveTransactionInclusion env ctx st stx proof pbn = some st') :
    stx.transaction.nonce =
      st.transactionCounts (proveSignerOf env stx) stx.transaction.chainId ∧
    st'.transactionCounts (proveSignerOf env stx) stx.transaction.chainId =
      st.transactionCounts (proveSignerOf env stx) stx.transaction.chainId + 1 ∧
    proveDebitTarget env st (proveSignerOf env stx) stx.transaction.chainId
        stx.transaction.destination (unsignedTxHashOf env stx.transaction) =
      (if st.encumbranceSubContract (proveSignerOf env stx)
            (getEncodedAsset env stx.transaction.chainId stx.transaction.destination) =
          st.lastUnlimitedSigner (proveSignerOf env stx) stx.transaction.chainId
            stx.transaction.destination then
        st.encumbranceSubContract (proveSignerOf env stx)
          (getEncodedAsset env stx.transaction.chainId stx.transaction.destination)
      else if (st.committedTransactions (proveSignerOf env stx)
            (unsignedTxHashOf env stx.transaction)).subPolicy ≠ 0 then
        (st.committedTransactions (proveSignerOf env stx)
          (unsignedTxHashOf env stx.transaction)).subPolicy
      else st.lastUnlimitedSigner (proveSignerOf env stx) stx.transaction.chainId
        stx.transaction.destination) ∧
    st'.subPolicyEthBalance
        (proveDebitTarget env st (proveSignerOf env stx) stx.transaction.chainId
          stx.transaction.destination (unsignedTxHashOf env stx.transaction))
        (proveSignerOf env stx) stx.transaction.chainId =
      st.subPolicyEthBalance
        (proveDebitTarget env st (proveSignerOf env stx) stx.transaction.chainId
          stx.transaction.destination (unsignedTxHashOf env stx.transaction))
        (proveSignerOf env stx) stx.transaction.chainId -
      min (getMaxTransactionCost stx.transaction)
        (st.subPolicyEthBalance
          (proveDebitTarget env st (proveSignerOf env stx) stx.transaction.chainId
            stx.transaction.destination (unsignedTxHashOf env stx.transaction))
          (proveSignerOf env stx) stx.transaction.chainId) ∧
    st'.lastUnlimitedSigner (proveSignerOf env stx) stx.transaction.chainId
        stx.transaction.destination =
      st.encumbranceSubContract (proveSignerOf env stx)
        (getEncodedAsset env stx.transaction.chainId stx.transaction.destination) := by
  have hbal := proveTransactionInclusion_bal h
  unfold proveTransactionInclusion at h
  split at h
  · exact absurd h (by simp)
  rename_i signerAccount hrec
  split at h
  · exact absurd h (by simp)
  split at h
  swap
  · exact absurd h (by simp)
  split at h
  · exact absurd h (by simp)
  rename_i includedTx hval
  split at h
  · exact absurd h (by simp)
  rename_i signedTxHash hhash
  split at h
  · exact absurd h (by simp)
  split at h
  · exact absurd h (by simp)
  rename_i hnonce
  split at h
  · exact absurd h (by simp)
  split at h
  · exact absurd h (by simp)
  split at h
  · exact absurd h (by simp)
  cases h
  have hsig : proveSignerOf env stx = signerAccount := by
    unfold proveSignerOf
    rw [hrec]
    rfl
  push_neg at hnonce
  refine ⟨by rw [hsig]; exact hnonce, ?_, proveDebitTarget_selection env st _ _ _ _, ?_, ?_⟩
  · rw [hsig]
    exact mapUpd2_same _ _ _ _
  · rw [hbal, mapUpd3_same]
    rcases le_or_lt (st.subPolicyEthBalance
        (proveDebitTarget env st (proveSignerOf env stx) stx.transaction.chainId
          stx.transaction.destination (unsignedTxHashOf env stx.transaction))
        (proveSignerOf env stx) stx.transaction.chainId)
        (getMaxTransactionCost stx.transaction) with hle | hlt
    · rw [if_neg (by omega), Nat.min_eq_right hle]
      omega
    · rw [if_pos hlt, Nat.min_eq_left (le_of_lt hlt)]
  · rw [hsig]
    exact mapUpd3_same _ _ _ _ _

theorem proveTransactionInclusion_spec_witness :
    proveTransactionInclusion pEnv0 ⟨70, 3, 30⟩ c4State cexOutboundTx ⟨[], 0⟩ 5 =
      some c4OutState ∧
    cexOutboundTx.transaction.nonce = c4State.transactionCounts 40 1 ∧
    c4OutState.transactionCounts 40 1 = c4State.transactionCounts 40 1 + 1 ∧
    proveDebitTarget pEnv0 c4State 40 1 20 42 = 4 ∧
    c4OutState.subPolicyEthBalance 4 40 1 = 0 ∧
    c4OutState.lastUnlimitedSigner 40 1 20 = 4 := by
  have hmain := proveTransactionInclusion_spec pEnv0 ⟨70, 3, 30⟩ c4State cexOutboundTx
    ⟨[], 0⟩ 5 c4OutState (by rfl)
  refine ⟨by rfl, hmain.1, hmain.2.1, by decide, ?_, ?_⟩
  · have hb := hmain.2.2.2.1
    exact hb.trans (by decide)
  · exact hmain.2.2.2.2

/-- The shared tail of `signTransaction` implies the lease, expiry,
nonce and ETH-balance conditions. -/
theorem signTransactionChecks_spec {env : PEnv} {ctx : PCtx} {st : PState}
    {account : Nat} {tx : Type2TxMessage} {sig : List Nat}
    (h : signTransactionChecks env ctx st account tx = some sig) :
    st.encumbranceSubContract account (findAssetFromTx env tx) = ctx.caller ∧
    ctx.timestamp < st.encumbranceExpiry account (findAssetFromTx env tx) ∧
    tx.nonce = st.transactionCounts account tx.chainId ∧
    st.subPolicyEthBalance ctx.caller account tx.chainId ≥ getMaxTransactionCost tx := by
  unfold signTransactionChecks at h
  split at h
  swap
  · exact absurd h (by simp)
  split at h
  swap
  · exact absurd h (by simp)
  split at h
  swap
  · exact absurd h (by simp)
  split at h
  swap
  · exact absurd h (by simp)
  split at h
  swap
  · exact absurd h (by simp)
  rename_i h1 h2 h3 h4 h5
  exact ⟨h1, h2, h3, h5⟩

/-- C5: `signTransaction` returns a signature only when the prepaid
inclusion-proof collateral bound, the commitment discipline (when the
caller is not the recorded unlimited signer, a commitment to this exact
transaction by the caller from a strictly earlier block), the unexpired
lease, the authoritative nonce and the ETH-balance bound all hold; and
a successful call leaves the policy state unchanged. -/
theorem signTransaction_conditions (env : PEnv) (ctx : PCtx) (st : PState)
    (account : Nat) (tx : Type2TxMessage) (sig : List Nat)
    (h : signTransaction env ctx st account tx = some sig) :
    estimateInclusionProofCost tx.payload.length ≤
      st.subPolicyLocalBalanceFinalized ctx.caller account tx.chainId ∧
    (st.lastUnlimitedSigner account tx.chainId tx.destination ≠ ctx.caller →
      (st.committedTransactions account (unsignedTxHashOf env tx)).subPolicy = ctx.caller ∧
      (st.committedTransactions account (unsignedTxHashOf env tx)).blockNumber
        < ctx.blockNumber) ∧
    st.encumbranceSubContract account (findAssetFromTx env tx) = ctx.caller ∧
    ctx.timestamp < st.encumbranceExpiry account (findAssetFromTx env tx) ∧
    tx.nonce = st.transactionCounts account tx.chainId ∧
    st.subPolicyEthBalance ctx.caller account tx.chainId ≥ getMaxTransactionCost tx ∧
    pstep env ctx (.signTransaction account tx) st = some st := by
  have hstep : pstep env ctx (.signTransaction account tx) st = some st := by
    simp only [pstep, h, Option.map_some']
  unfold signTransaction at h
  split at h
  · exact absurd h (by simp)
  split at h
  swap
  · exact absurd h (by simp)
  rename_i hcost
  split at h
  · split at h
    swap
    · exact absurd h (by simp)
    split at h
    swap
    · exact absurd h (by simp)
    rename_i hlus hcommit hblock
    have hc := signTransactionChecks_spec h
    exact ⟨hcost, fun _ => ⟨hcommit, hblock⟩, hc.1, hc.2.1, hc.2.2.1, hc.2.2.2, hstep⟩
  · rename_i hlus
    push_neg at hlus
    have hc := signTransactionChecks_spec h
    exact ⟨hcost, fun hne => absurd hlus hne, hc.1, hc.2.1, hc.2.2.1, hc.2.2.2, hstep⟩

theorem signTransaction_conditions_witness :
    signTransaction pEnv0 ⟨4, 5, 100⟩ c5State 40 cexOutboundTx.transaction = some [1] ∧
    estimateInclusionProofCost cexOutboundTx.transaction.payload.length ≤
      c5State.subPolicyLocalBalanceFinalized 4 40 1 ∧
    c5State.encumbranceSubContract 40 (findAssetFromTx pEnv0 cexOutboundTx.transaction) = 4 ∧
    cexOutboundTx.transaction.nonce = c5State.transactionCounts 40 1 ∧
    c5State.subPolicyEthBalance 4 40 1 ≥ getMaxTransactionCost cexOutboundTx.transaction ∧
    pstep pEnv0 ⟨4, 5, 100⟩ (.signTransaction 40 cexOutboundTx.transaction) c5State =
      some c5State := by
  have hmain := signTransaction_conditions pEnv0 ⟨4, 5, 100⟩ c5State 40
    cexOutboundTx.transaction [1] (by decide)
  exact ⟨by decide, hmain.1, hmain.2.2.1, hmain.2.2.2.2.1, hmain.2.2.2.2.2.1,
    hmain.2.2.2.2.2.2⟩

/-- C9: the policy keeps a single contract-wide `walletOwner`, not one
per account: every successful `notifyEncumbranceEnrollment` overwrites
it with that call's `owner`, and `isDepositCommitted` thereafter checks
every commitment-proof signature — for every account, including
accounts enrolled earlier by a different owner — against that most
recent owner. -/
theorem walletOwner_contract_wide (env : PEnv) (ctx : PCtx) (st : PState)
    (owner account : Nat) (assets : List Nat) (expiration managerAddr : Nat)
    (st' : PState)
    (h : notifyEncumbranceEnrollment ctx st owner account assets expiration managerAddr
      = some st') :
    st'.walletOwner = owner ∧
    (∀ proofAccount proofTxHash : Nat, ∀ sig : List Nat,
      isDepositCommitted env st' proofAccount proofTxHash sig =
        match env.ecrecover (env.commitDigest proofAccount proofTxHash) sig with
        | none => none
        | some recovered =>
            if recovered = owner then
              some (decide ((st'.depositTransactions proofTxHash).account = proofAccount))
            else none) := by
  unfold notifyEncumbranceEnrollment at h
  split at h
  · exact absurd h (by simp)
  split at h
  · exact absurd h (by simp)
  split at h
  swap
  · exact absurd h (by simp)
  cases h
  refine ⟨rfl, ?_⟩
  intro proofAccount proofTxHash sig
  unfold isDepositCommitted
  rfl

theorem walletOwner_contract_wide_witness :
    notifyEncumbranceEnrollment ⟨50, 1, 10⟩ (pInitial 50) 60 40 [0x02] 1000 30 =
      some c9State1 ∧
    c9State1.walletOwner = 60 ∧
    notifyEncumbranceEnrollment ⟨50, 2, 20⟩ c9State1 61 41 [0x02] 1000 31 =
      some c9State2 ∧
    c9State2.walletOwner = 61 ∧
    isDepositCommitted pEnv0 c9State2 40 42 [] =
      (if (0 : Nat) = 61 then some (decide ((c9State2.depositTransactions 42).account = 40))
        else none) := by
  have h1 := walletOwner_contract_wide pEnv0 ⟨50, 1, 10⟩ (pInitial 50) 60 40 [0x02]
    1000 30 c9State1 (by rfl)
  have h2 := walletOwner_contract_wide pEnv0 ⟨50, 2, 20⟩ c9State1 61 41 [0x02]
    1000 31 c9State2 (by rfl)
  exact ⟨by rfl, h1.1, by rfl, h2.1, h2.2 40 42 []⟩

/-- C1 (amended): `depositFunds` never consults the block-hash oracle —
its outcome is unchanged under an arbitrary replacement of the oracle —
and it fails (`ProofMismatch`) whenever the proof's included transaction
does not hash to the expected signed-transaction hash.  Only
`proveTransactionInclusion` compares the header hash with the oracle. -/
theorem depositFunds_ignores_oracle (env : PEnv) (oracle2 : Nat → Nat) (ctx : PCtx)
    (st : PState) (stx : Type2TxMessageSigned) (proof : TransactionProof) :
    depositFunds { env with getBlockHash := oracle2 } ctx st stx proof =
      depositFunds env ctx st stx proof ∧
    (∀ includedTx h27, env.validateTxProof proof = some includedTx →
      signedTxHashOf env stx = some h27 → env.keccakB includedTx ≠ h27 →
      depositFunds env ctx st stx proof = none) := by
  constructor
  · rfl
  · intro includedTx h27 hval hhash hne
    unfold depositFunds
    split
    swap
    · rfl
    rw [hval, hhash]
    dsimp only
    split_ifs <;> first | rfl | tauto

/-- C1 (counterexample to the claim as stated): a `depositFunds` call
whose inclusion proof carries a block header hashing to 99, while the
block-hash oracle reports 42 for the inclusion block (and every other
block), succeeds and credits the deposit instead of failing with
`ProofMismatch`: the entry point never queries the oracle. -/
theorem depositFunds_oracle_mismatch_accepted :
    c1Env.keccakB ((⟨[9, 9], 0⟩ : TransactionProof).rlpBlockHeader) ≠
      c1Env.getBlockHash 5 ∧
    depositFunds c1Env ⟨4, 2, 20⟩ c1State cexDepositTx ⟨[9, 9], 0⟩ = some c1OutState ∧
    c1OutState.subPolicyEthBalance 4 40 1 = 10 :=
  ⟨by decide, by rfl, by decide⟩

theorem depositFunds_ignores_oracle_witness :
    depositFunds { c1BadEnv with getBlockHash := fun _ => 7 } ⟨4, 2, 20⟩ (pInitial 50)
        cexDepositTx ⟨[], 0⟩ =
      depositFunds c1BadEnv ⟨4, 2, 20⟩ (pInitial 50) cexDepositTx ⟨[], 0⟩ ∧
    c1BadEnv.validateTxProof ⟨[], 0⟩ = some [] ∧
    signedTxHashOf c1BadEnv cexDepositTx = some 42 ∧
    c1BadEnv.keccakB [] ≠ 42 ∧
    depositFunds c1BadEnv ⟨4, 2, 20⟩ (pInitial 50) cexDepositTx ⟨[], 0⟩ = none := by
  have hmain := depositFunds_ignores_oracle c1BadEnv (fun _ => 7) ⟨4, 2, 20⟩
    (pInitial 50) cexDepositTx ⟨[], 0⟩
  exact ⟨hmain.1, by decide, by decide, by decide,
    hmain.2 [] 42 (by decide) (by decide) (by decide)⟩
